import Mathlib

/-!
# event-abbey: a cooperative round-robin task scheduler (`src/EventAbbey.c`)

A shallow embedding of `EventAbbey.c`.  The program keeps a table of task
slots and a pool of "monks" (workers).  `dispatch_task` fills the first free
slot; the scheduler resumes the monks in cyclic order with `longjmp`; a resumed
monk runs the first slot that is waiting and jumps back to the scheduler.

Modelling decisions.

* The C globals (`task`, `monk`, `monkCount`, `currentMonk`, `timesScheduled`)
  are the fields of `Abbey`.  `taskCount` is the length of `task`: it only
  bounds the two `for` loops over the table.
* C `int` is `Int`.  All counters stay between `-1` and the value they were
  initialised with in the runs considered, so no wrap-around is modelled.
* `setjmp`/`longjmp` are modelled by their intended meaning: a `longjmp` to a
  captured buffer continues right after the matching `setjmp`, which then
  returns the value passed (`1` when `0` is passed).  A jump through a buffer
  that was never captured, an out-of-bounds index of `monk`, and `% 0` are
  `Outcome.undefined`.
* A work function (`void *(*)(void *)`) is a pointer, here a number; what a
  call does is given by `code func context`, a finite tree of actions
  (`Work`): reading and writing the memory it owns, printing, and calling
  `dispatch_task`.  Finiteness of the tree is "the work function returns".
* Every `printf` of the source is an `Event` appended to `out`; the call
  `task[i].func(task[i].context)` is recorded as `Event.call`.
* The demo (`inc`, `real_main`, `main`) runs over a memory of integer cells,
  `Nat → Option Int`; `none` is a cell without a determinate value, such as the
  local `value3` of `real_main` once `real_main` has returned.
-/

namespace EventAbbey

/-- Task slot is ready to be filled with new task (`#define TS_FREE 0`). -/
def TS_FREE : Int := 0

/-- Task slot is ready to be executed (`#define TS_EXECUTEME 1`). -/
def TS_EXECUTEME : Int := 1

/-- Task slot is being executed (`#define TS_EXECUTING 2`), unused by the code. -/
def TS_EXECUTING : Int := 2

/-- The demo cycle budget (`#define MAX_COUNT 8`). -/
def MAX_COUNT : Int := 8

/-- The struct `Task`: a state flag, a function pointer and its argument. -/
structure Task where
  state : Int
  func : Nat
  context : Nat
  deriving DecidableEq, Repr

/-- The struct `Monk`: its number and whether its `jmp_buf` has been captured. -/
structure Monk where
  number : Nat
  environment : Bool
  deriving DecidableEq, Repr

/-- One line of output of the program, or the call of a work function. -/
inductive Event where
  /-- Prints "The abbey is initialized with %d monks and a buffer for %d tasks." -/
  | abbeyInitialized (nofMonks nofTasks : Int)
  /-- Prints "The abbey is started..." -/
  | abbeyStarted
  /-- Prints "Jump to scheduler." -/
  | jumpToScheduler
  /-- Prints "Initializing scheduler." -/
  | initScheduler
  /-- Prints "Initialize monks." -/
  | initMonks
  /-- Prints "Initialize monk nr. %d and jump back to start_abbey." -/
  | initMonk (index : Int)
  /-- Prints "Start scheduling." -/
  | startScheduling
  /-- Prints "Just quit when x times scheduled in this demo." -/
  | quit
  /-- Prints "Jump to monk %d." -/
  | jumpToMonk (m : Int)
  /-- Prints "Iterate tasks as monk nr. %d." -/
  | iterateTasks (index : Int)
  /-- Prints "Execute task at slot %d." -/
  | executeTask (i : Nat)
  /-- Prints "No task found, jump back to scheduler." -/
  | noTaskFound
  /-- Prints "!! Task dispatched." -/
  | taskDispatched
  /-- Prints "Task put in buffer to be executed."; the event also names the slot
  written and what was written into it. -/
  | taskPut (i func context : Nat)
  /-- The call `task[i].func(task[i].context)`. -/
  | call (i func context : Nat)
  /-- A line printed by `main` or by a work function. -/
  | output (text : String)
  deriving DecidableEq, Repr

/-- The global state of the program; `mem` is the memory the work functions
own and `out` the events so far, oldest first. -/
structure Abbey (M : Type) where
  task : List Task
  monk : List Monk
  monkCount : Int
  currentMonk : Int
  timesScheduled : Int
  mem : M
  out : List Event

/-- What a call of a work function does: it returns, reads or writes its
memory, prints, or calls `dispatch_task` and goes on with the value returned. -/
inductive Work (M : Type) where
  | ret : Work M
  | load : (M → Work M) → Work M
  | store : M → Work M → Work M
  | print : String → Work M → Work M
  | dispatch : Nat → Nat → (Int → Work M) → Work M

/-- Where a monk transfers control to: `longjmp(MAIN, 1)` or
`longjmp(SCHEDULER, 1)`. -/
inductive Jump (M : Type) where
  | toMain : Abbey M → Jump M
  | toScheduler : Abbey M → Jump M

/-- How far a run has come: `exit(status)` was called, the behaviour is
undefined, or control is at `setjmp(SCHEDULER)` about to start a cycle. -/
inductive Outcome (M : Type) where
  | exit : Int → Abbey M → Outcome M
  | undefined : Outcome M
  | running : Abbey M → Outcome M

variable {M : Type}

/-- The static initialisers: no tables yet, `currentMonk = -1`,
`timesScheduled = MAX_COUNT`. -/
def globals (m : M) : Abbey M :=
  { task := [], monk := [], monkCount := 0, currentMonk := -1,
    timesScheduled := MAX_COUNT, mem := m, out := [] }

/-- A `printf`. -/
def Abbey.printf (s : Abbey M) (e : Event) : Abbey M :=
  { s with out := s.out ++ [e] }

/-- The loop `for(i = 0; i < taskCount; i++) if(task[i].state == st)`: the
index at which its body is entered first, if at all. -/
def firstSlot (st : Int) : List Task → Option Nat
  | [] => none
  | t :: ts => if t.state = st then some 0 else (firstSlot st ts).map (· + 1)

/-- The function `initialize_abbey`: both tables come zeroed from `calloc`. -/
def initialize_abbey (nofMonks nofTasks : Int) (s : Abbey M) : Int × Abbey M :=
  let s := s.printf (.abbeyInitialized nofMonks nofTasks)
  (0, { s with
          monkCount := nofMonks
          task := List.replicate nofTasks.toNat ⟨0, 0, 0⟩
          monk := List.replicate nofMonks.toNat ⟨0, false⟩ })

/-- The function `dispatch_task`: the first free slot takes `func` and
`context` and becomes `TS_EXECUTEME`, result `0`; without a free slot the
result is `1`. -/
def dispatch_task (func context : Nat) (s : Abbey M) : Int × Abbey M :=
  let s := s.printf .taskDispatched
  match firstSlot TS_FREE s.task with
  | some i =>
    (0, { s with
            task := s.task.set i ⟨TS_EXECUTEME, func, context⟩
            out := s.out ++ [.taskPut i func context] })
  | none => (1, s)

/-- Running the body of a work function. -/
def runWork : Work M → Abbey M → Abbey M
  | .ret, s => s
  | .load k, s => runWork (k s.mem) s
  | .store m k, s => runWork k { s with mem := m }
  | .print text k, s => runWork k (s.printf (.output text))
  | .dispatch func context k, s =>
    runWork (k (dispatch_task func context s).1) (dispatch_task func context s).2

/-- The value `setjmp` returns when reached by `longjmp(env, val)`. -/
def longjmp_val (val : Int) : Int := if val = 0 then 1 else val

/-- The function `monking` from the return of its `setjmp` with value `r`:
`r = 0` right after the capture, `r = index + 1` when resumed. -/
def monking_resume (code : Nat → Nat → Work M) (r : Int) (s : Abbey M) : Jump M :=
  let index := r - 1
  if index = -1 then .toMain s
  else
    let s := s.printf (.iterateTasks index)
    match firstSlot TS_EXECUTEME s.task with
    | some i =>
      let t := s.task.getD i ⟨0, 0, 0⟩
      let s := s.printf (.executeTask i)
      let s := runWork (code t.func t.context) (s.printf (.call i t.func t.context))
      .toScheduler { s with task := s.task.set i { s.task.getD i ⟨0, 0, 0⟩ with state := TS_FREE } }
    | none => .toScheduler (s.printf .noTaskFound)

/-- The function `monking` as called by `start_abbey` with `arg` pointing at
`monk[index].number`: it captures its environment and jumps back. -/
def monking (code : Nat → Nat → Work M) (index : Nat) (s : Abbey M) : Option (Jump M) :=
  let s := s.printf (.initMonk index)
  match s.monk[index]? with
  | some m => some (monking_resume code 0 { s with monk := s.monk.set index { m with environment := true } })
  | none => none

/-- The function `scheduler` as called by `start_abbey`: it captures
`SCHEDULER` and jumps back to `MAIN`. -/
def scheduler (s : Abbey M) : Abbey M :=
  s.printf .initScheduler

/-- The function `scheduler` from the return of `setjmp(SCHEDULER)` with a
nonzero value: one scheduling cycle, up to the monk's jump back. -/
def scheduler_resume (code : Nat → Nat → Work M) (s : Abbey M) : Outcome M :=
  let old := s.timesScheduled
  let s := { s with timesScheduled := s.timesScheduled - 1 }
  if old = 0 then .exit 0 (s.printf .quit)
  else if s.monkCount = 0 then .undefined
  else
    let s := { s with currentMonk := (s.currentMonk + 1).tmod s.monkCount }
    let s := s.printf (.jumpToMonk s.currentMonk)
    if s.currentMonk < 0 then .undefined
    else
      match s.monk[s.currentMonk.toNat]? with
      | some m =>
        if m.environment then
          match monking_resume code (longjmp_val (s.currentMonk + 1)) s with
          | .toScheduler s => .running s
          | .toMain _ => .undefined
        else .undefined
      | none => .undefined

/-- At most `fuel` scheduling cycles in a row. -/
def scheduling (code : Nat → Nat → Work M) : Nat → Abbey M → Outcome M
  | 0, s => .running s
  | fuel + 1, s =>
    match scheduler_resume code s with
    | .running s => scheduling code fuel s
    | o => o

/-- The loop of `start_abbey` that enters the monks `i, i+1, ...` once each;
`n` is the number of iterations left (`monkCount - i`). -/
def initialize_monks (code : Nat → Nat → Work M) : Nat → Nat → Abbey M → Option (Abbey M)
  | 0, _, s => some s
  | n + 1, i, s =>
    match s.monk[i]? with
    | some m =>
      match monking code i { s with monk := s.monk.set i { m with number := i } } with
      | some (.toMain s) => initialize_monks code n (i + 1) s
      | _ => none
    | none => none

/-- The function `start_abbey`, running at most `fuel` scheduling cycles. -/
def start_abbey (code : Nat → Nat → Work M) (fuel : Nat) (s : Abbey M) : Outcome M :=
  let s := s.printf .abbeyStarted
  let s := s.printf .jumpToScheduler
  let s := scheduler s
  let s := s.printf .initMonks
  match initialize_monks code s.monkCount.toNat 0 s with
  | some s => scheduling code fuel (s.printf .startScheduling)
  | none => .undefined

/-! ## The demo program -/

/-- The result of arithmetic on a C `int`, taken in two's complement (32 bits).
Signed overflow is undefined in C; the value only matters for what `inc`
prints. -/
def wrap_int (x : Int) : Int := (x + 2 ^ 31) % 2 ^ 32 - 2 ^ 31

/-- The address of the global `value1` (`p_value1`). -/
def p_value1 : Nat := 1

/-- The address of the global `value2` (`p_value2`). -/
def p_value2 : Nat := 2

/-- The address of `value3`, a local of `real_main` (`p_value3`). -/
def p_value3 : Nat := 3

/-- The function pointer `inc`. -/
def inc_addr : Nat := 1

/-- The function pointer `real_main`. -/
def real_main_addr : Nat := 2

/-- The memory at program start: `value1 = 16`, `value2 = 19`; a cell holding
`none` has no determinate value. -/
def initial_memory : Nat → Option Int :=
  fun a => if a = p_value1 then some 16 else if a = p_value2 then some 19 else none

/-- The function `inc`: it copies the integer `context` points at into the local
`value`, increments the local, prints it and returns `NULL`. -/
def inc (context : Nat) : Work (Nat → Option Int) :=
  .load fun m =>
    match m context with
    | some value =>
      .print ("The value is incremented to " ++ toString (wrap_int (value + 1)) ++ ".") .ret
    | none => .print "The value is incremented to an indeterminate value." .ret

/-- The function `real_main`: it sets its local `value3` to `22` and dispatches
`inc` on `p_value1`, `p_value2` and `p_value3`.  When it returns, the cell of
`value3` is no longer its own and holds nothing determinate. -/
def real_main (_context : Nat) : Work (Nat → Option Int) :=
  .load fun m =>
    .store (Function.update m p_value3 (some 22)) <|
    .print "Dispatch increment tasks." <|
    .dispatch inc_addr p_value1 fun _ =>
    .dispatch inc_addr p_value2 fun _ =>
    .dispatch inc_addr p_value3 fun _ =>
    .print "Tasks dispatched. You can see that the actual execution of those " <|
    .print "tasks is later on." <|
    .load fun m' => .store (Function.update m' p_value3 none) .ret

/-- What the function pointers of the demo stand for. -/
def program (func context : Nat) : Work (Nat → Option Int) :=
  if func = inc_addr then inc context
  else if func = real_main_addr then real_main context
  else .ret

/-- The function `main`, running at most `fuel` scheduling cycles. -/
def main (fuel : Nat) : Outcome (Nat → Option Int) :=
  let s := globals initial_memory
  let s := s.printf (.output "---------------------")
  let s := s.printf (.output "Starting the engines!")
  let s := s.printf (.output "---------------------")
  let s := (initialize_abbey 2 4 s).2
  let s := s.printf (.output "Dispatch main task.")
  let s := (dispatch_task real_main_addr 0 s).2
  let s := s.printf (.output "Main task dispatched.")
  start_abbey program fuel s

/-- The output of the demo, without the lines of `main` and of the work
functions: initialisation and the dispatch of `real_main`, booting, cycle 1
(`real_main` called from slot 0, its three dispatches), cycles 2 to 4 (the
three calls of `inc`), cycles 5 to 8 (nothing found), and the exit. -/
def main_events_expected : List Event :=
  [Event.abbeyInitialized 2 4, Event.taskDispatched, Event.taskPut 0 real_main_addr 0,
    Event.abbeyStarted, Event.jumpToScheduler, Event.initScheduler, Event.initMonks,
    Event.initMonk 0, Event.initMonk 1, Event.startScheduling,
    Event.jumpToMonk 0, Event.iterateTasks 0, Event.executeTask 0,
    Event.call 0 real_main_addr 0,
    Event.taskDispatched, Event.taskPut 1 inc_addr p_value1,
    Event.taskDispatched, Event.taskPut 2 inc_addr p_value2,
    Event.taskDispatched, Event.taskPut 3 inc_addr p_value3,
    Event.jumpToMonk 1, Event.iterateTasks 1, Event.executeTask 1,
    Event.call 1 inc_addr p_value1,
    Event.jumpToMonk 0, Event.iterateTasks 0, Event.executeTask 2,
    Event.call 2 inc_addr p_value2,
    Event.jumpToMonk 1, Event.iterateTasks 1, Event.executeTask 3,
    Event.call 3 inc_addr p_value3,
    Event.jumpToMonk 0, Event.iterateTasks 0, Event.noTaskFound,
    Event.jumpToMonk 1, Event.iterateTasks 1, Event.noTaskFound,
    Event.jumpToMonk 0, Event.iterateTasks 0, Event.noTaskFound,
    Event.jumpToMonk 1, Event.iterateTasks 1, Event.noTaskFound,
    Event.quit]

/-! ## Observations on a state or its output -/

/-- The ids of the monks resumed, in order ("Jump to monk %d."). -/
def resumed : List Event → List Int
  | [] => []
  | .jumpToMonk m :: es => m :: resumed es
  | _ :: es => resumed es

/-- The calls of work functions made, in order: slot, function, argument. -/
def calls : List Event → List (Nat × Nat × Nat)
  | [] => []
  | .call i func context :: es => (i, func, context) :: calls es
  | _ :: es => calls es

/-- The successful dispatches, in order: slot, function, argument. -/
def puts : List Event → List (Nat × Nat × Nat)
  | [] => []
  | .taskPut i func context :: es => (i, func, context) :: puts es
  | _ :: es => puts es

/-- The number of slots that are `TS_EXECUTEME`. -/
def readyCount (task : List Task) : Nat :=
  task.countP (fun t => t.state = TS_EXECUTEME)

/-- The work function never calls `dispatch_task`, whatever it reads. -/
def Work.noDispatch : Work M → Prop
  | .ret => True
  | .load k => ∀ m, (k m).noDispatch
  | .store _ k => k.noDispatch
  | .print _ k => k.noDispatch
  | .dispatch _ _ _ => False

/-- A driver calling `dispatch_task` once for each pair of the list, in
order; it collects the values returned. -/
def dispatch_all : List (Nat × Nat) → Abbey M → List Int × Abbey M
  | [], s => ([], s)
  | d :: ds, s =>
    ((dispatch_task d.1 d.2 s).1 :: (dispatch_all ds (dispatch_task d.1 d.2 s).2).1,
     (dispatch_all ds (dispatch_task d.1 d.2 s).2).2)

/-- The states between turns: what `initialize_abbey` leaves, followed in any
order by calls of `dispatch_task`, turns of resumed monks, the booting of
`start_abbey`, whole scheduling cycles and the final `exit`. -/
inductive Reachable (code : Nat → Nat → Work M) (nofMonks nofTasks : Int) : Abbey M → Prop
  | init (g : Abbey M) (h : g.out = []) : Reachable code nofMonks nofTasks (initialize_abbey nofMonks nofTasks g).2
  | dispatch (func context : Nat) (s : Abbey M) :
      Reachable code nofMonks nofTasks s →
      Reachable code nofMonks nofTasks (dispatch_task func context s).2
  | turn (r : Int) (s s' : Abbey M) :
      Reachable code nofMonks nofTasks s →
      monking_resume code r s = .toScheduler s' →
      Reachable code nofMonks nofTasks s'
  | boot (s s' : Abbey M) :
      Reachable code nofMonks nofTasks s →
      start_abbey code 0 s = .running s' →
      Reachable code nofMonks nofTasks s'
  | cycle (s s' : Abbey M) :
      Reachable code nofMonks nofTasks s →
      scheduler_resume code s = .running s' →
      Reachable code nofMonks nofTasks s'
  | quit (status : Int) (s s' : Abbey M) :
      Reachable code nofMonks nofTasks s →
      scheduler_resume code s = .exit status s' →
      Reachable code nofMonks nofTasks s'

/-- The tasks waiting in the table from slot `b` on: slot, function, argument. -/
def waitingFrom : Nat → List Task → List (Nat × Nat × Nat)
  | _, [] => []
  | b, t :: ts =>
    if t.state = TS_EXECUTEME then (b, t.func, t.context) :: waitingFrom (b + 1) ts
    else waitingFrom (b + 1) ts

/-- The tasks waiting in the table: slot, function, argument. -/
def waiting (task : List Task) : List (Nat × Nat × Nat) := waitingFrom 0 task

/-- The state `start_abbey` hands to the scheduling cycles: `N` monks, each with
a captured environment. -/
def Booted (N : Nat) (s : Abbey M) : Prop :=
  s.monkCount = N ∧ s.monk.length = N ∧ ∀ m ∈ s.monk, m.environment = true

/-- The workload of the counter scenario: a work function that adds one to the
integer its argument points at. -/
def increment (context : Nat) : Work (Nat → Int) :=
  .load fun m => .store (Function.update m context (m context + 1)) .ret

/-- Every slot of the table is `TS_FREE` or `TS_EXECUTEME`. -/
def TwoState (task : List Task) : Prop :=
  ∀ t ∈ task, t.state = TS_FREE ∨ t.state = TS_EXECUTEME

/-- The ids the resumed monks recover from `setjmp`, in order ("Iterate tasks as
monk nr. %d."). -/
def iterated : List Event → List Int
  | [] => []
  | .iterateTasks index :: es => index :: iterated es
  | _ :: es => iterated es

/-- The calls made from the start of the output up to the next resume. -/
def turnCalls : List Event → List (Nat × Nat × Nat)
  | [] => []
  | .jumpToMonk _ :: _ => []
  | .call i func context :: es => (i, func, context) :: turnCalls es
  | _ :: es => turnCalls es

/-- The turns of the run, in order: the monk resumed and the calls it made
before the next monk was resumed. -/
def turns : List Event → List (Int × List (Nat × Nat × Nat))
  | [] => []
  | .jumpToMonk m :: es => (m, turnCalls es) :: turns es
  | _ :: es => turns es

/-- The output without the lines of `main` and of the work functions. -/
def withoutOutput : List Event → List Event
  | [] => []
  | .output _ :: es => withoutOutput es
  | e :: es => e :: withoutOutput es

/-- What the last successful dispatch into slot `i` wrote there, if there was
one. -/
def lastPut (i : Nat) (out : List Event) : Option (Nat × Nat) :=
  (((puts out).filter (fun p => p.1 = i)).getLast?).map (fun p => p.2)

/-- The calls of `dispatch_task` a work function makes when run from `s`:
function, argument and the state in which the call is made. -/
def dispatchPoints : Work M → Abbey M → List (Nat × Nat × Abbey M)
  | .ret, _ => []
  | .load k, s => dispatchPoints (k s.mem) s
  | .store m k, s => dispatchPoints k { s with mem := m }
  | .print text k, s => dispatchPoints k (s.printf (.output text))
  | .dispatch func context k, s =>
    (func, context, s) ::
      dispatchPoints (k (dispatch_task func context s).1) (dispatch_task func context s).2

/-- The status a run has exited with, if it has. -/
def Outcome.status : Outcome M → Option Int
  | .exit status _ => some status
  | _ => none

/-- The state a run is in, unless its behaviour is undefined. -/
def Outcome.state : Outcome M → Option (Abbey M)
  | .exit _ s => some s
  | .running s => some s
  | .undefined => none

/-- The run of the slot-order scenario with one monk and two slots: the state
after tasks `10` and `11` are dispatched and one cycle has run; the state after
task `12` is then dispatched and a second cycle has run; the state after a
third cycle. -/
def slot_order_run : Option (Abbey Unit) × Option (Abbey Unit) × Option (Abbey Unit) :=
  let s1 := (start_abbey (fun _ _ => Work.ret) 1
    (dispatch_all [(10, 0), (11, 0)] (initialize_abbey 1 2 (globals ())).2).2).state
  let s2 := s1.bind fun s =>
    (scheduler_resume (fun _ _ => Work.ret) (dispatch_task 12 0 s).2).state
  let s3 := s2.bind fun s => (scheduler_resume (fun _ _ => Work.ret) s).state
  (s1, s2, s3)

/-- Every waiting slot holds what the last successful dispatch into it wrote. -/
def HoldsLastPut (task : List Task) (out : List Event) : Prop :=
  ∀ (i : Nat) (t : Task), task[i]? = some t → t.state = TS_EXECUTEME →
    lastPut i out = some (t.func, t.context)

theorem firstSlot_lt (st : Int) : ∀ (l : List Task) (i : Nat), firstSlot st l = some i → i < l.length
  | [], i, h => by simp [firstSlot] at h
  | t :: ts, i, h => by
    unfold firstSlot at h
    split at h
    · simp at h; subst h; simp
    · cases hr : firstSlot st ts with
      | none => simp [hr] at h
      | some j =>
        simp [hr] at h; subst h
        have := firstSlot_lt st ts j hr
        simp; omega

theorem firstSlot_state (st : Int) : ∀ (l : List Task) (i : Nat), firstSlot st l = some i →
    ∃ t, l[i]? = some t ∧ t.state = st
  | [], i, h => by simp [firstSlot] at h
  | t :: ts, i, h => by
    unfold firstSlot at h
    split at h
    · rename_i hst
      simp at h; subst h; exact ⟨t, by simp, hst⟩
    · cases hr : firstSlot st ts with
      | none => simp [hr] at h
      | some j =>
        simp [hr] at h; subst h
        obtain ⟨u, hu, hs⟩ := firstSlot_state st ts j hr
        exact ⟨u, by simpa using hu, hs⟩

theorem firstSlot_before (st : Int) : ∀ (l : List Task) (i : Nat), firstSlot st l = some i →
    ∀ j, j < i → ∀ t, l[j]? = some t → t.state ≠ st
  | [], i, h => by simp [firstSlot] at h
  | t :: ts, i, h => by
    unfold firstSlot at h
    split at h
    · simp at h; subst h; intro j hj; omega
    · rename_i hst
      cases hr : firstSlot st ts with
      | none => simp [hr] at h
      | some k =>
        simp [hr] at h; subst h
        intro j hj u hu
        cases j with
        | zero => simp at hu; subst hu; exact hst
        | succ j =>
          simp at hu
          exact firstSlot_before st ts k hr j (by omega) u hu

theorem firstSlot_none (st : Int) : ∀ (l : List Task), firstSlot st l = none ↔ ∀ t ∈ l, t.state ≠ st
  | [] => by simp [firstSlot]
  | t :: ts => by
    unfold firstSlot
    by_cases hst : t.state = st
    · simp [hst]
    · simp [hst, firstSlot_none st ts]

theorem firstSlot_isSome (st : Int) (l : List Task) (h : ∃ t ∈ l, t.state = st) :
    ∃ i, firstSlot st l = some i := by
  cases hr : firstSlot st l with
  | some i => exact ⟨i, rfl⟩
  | none =>
    obtain ⟨t, ht, hs⟩ := h
    exact absurd hs ((firstSlot_none st l).1 hr t ht)

/-! ## `dispatch_task` -/

theorem dispatch_task_full (func context : Nat) (s : Abbey M)
    (h : firstSlot TS_FREE s.task = none) :
    dispatch_task func context s = (1, s.printf .taskDispatched) := by
  simp [dispatch_task, Abbey.printf, h]

theorem dispatch_task_ok (func context : Nat) (s : Abbey M) (i : Nat)
    (h : firstSlot TS_FREE s.task = some i) :
    dispatch_task func context s =
      (0, { s with
              task := s.task.set i ⟨TS_EXECUTEME, func, context⟩
              out := s.out ++ [.taskDispatched, .taskPut i func context] }) := by
  simp [dispatch_task, Abbey.printf, h]

theorem dispatch_task_cases (func context : Nat) (s : Abbey M) :
    (firstSlot TS_FREE s.task = none ∧
      dispatch_task func context s = (1, s.printf .taskDispatched)) ∨
    (∃ i, firstSlot TS_FREE s.task = some i ∧
      dispatch_task func context s =
        (0, { s with
                task := s.task.set i ⟨TS_EXECUTEME, func, context⟩
                out := s.out ++ [.taskDispatched, .taskPut i func context] })) := by
  cases h : firstSlot TS_FREE s.task with
  | none => exact Or.inl ⟨rfl, dispatch_task_full func context s h⟩
  | some i => exact Or.inr ⟨i, rfl, dispatch_task_ok func context s i h⟩

theorem dispatch_task_frame (func context : Nat) (s : Abbey M) :
    (dispatch_task func context s).2.monk = s.monk ∧
    (dispatch_task func context s).2.monkCount = s.monkCount ∧
    (dispatch_task func context s).2.currentMonk = s.currentMonk ∧
    (dispatch_task func context s).2.timesScheduled = s.timesScheduled ∧
    (dispatch_task func context s).2.mem = s.mem ∧
    (dispatch_task func context s).2.task.length = s.task.length := by
  rcases dispatch_task_cases func context s with ⟨_, h⟩ | ⟨i, _, h⟩ <;>
    simp [h, Abbey.printf]

/-- A slot that is not free is left alone by `dispatch_task`. -/
theorem dispatch_task_keeps (func context : Nat) (s : Abbey M) (j : Nat) (t : Task)
    (hj : s.task[j]? = some t) (ht : t.state ≠ TS_FREE) :
    (dispatch_task func context s).2.task[j]? = some t := by
  rcases dispatch_task_cases func context s with ⟨_, h⟩ | ⟨i, hi, h⟩
  · simp [h, Abbey.printf, hj]
  · obtain ⟨u, hu, hs⟩ := firstSlot_state TS_FREE s.task i hi
    have hne : i ≠ j := by
      rintro rfl
      rw [hj] at hu
      cases hu
      exact ht hs
    simp [h, List.getElem?_set_ne hne, hj]

/-! ## Work functions -/

theorem runWork_frame (w : Work M) : ∀ s : Abbey M,
    (runWork w s).monk = s.monk ∧
    (runWork w s).monkCount = s.monkCount ∧
    (runWork w s).currentMonk = s.currentMonk ∧
    (runWork w s).timesScheduled = s.timesScheduled ∧
    (runWork w s).task.length = s.task.length := by
  induction w with
  | ret => intro s; simp [runWork]
  | load k ih => intro s; simpa [runWork] using ih s.mem s
  | store m k ih => intro s; simpa [runWork] using ih { s with mem := m }
  | print text k ih => intro s; simpa [runWork, Abbey.printf] using ih (s.printf (.output text))
  | dispatch func context k ih =>
    intro s
    have h := ih (dispatch_task func context s).1 (dispatch_task func context s).2
    have hf := dispatch_task_frame func context s
    simp only [runWork]
    refine ⟨h.1.trans hf.1, h.2.1.trans hf.2.1, h.2.2.1.trans hf.2.2.1,
      h.2.2.2.1.trans hf.2.2.2.1, h.2.2.2.2.trans hf.2.2.2.2.2⟩

/-- A slot that is not free is left alone by a work function. -/
theorem runWork_keeps (w : Work M) : ∀ (s : Abbey M) (j : Nat) (t : Task),
    s.task[j]? = some t → t.state ≠ TS_FREE → (runWork w s).task[j]? = some t := by
  induction w with
  | ret => intro s j t hj _; simpa [runWork] using hj
  | load k ih => intro s j t hj ht; simpa [runWork] using ih s.mem s j t hj ht
  | store m k ih => intro s j t hj ht; simpa [runWork] using ih { s with mem := m } j t hj ht
  | print text k ih =>
    intro s j t hj ht
    simpa [runWork] using ih (s.printf (.output text)) j t (by simpa [Abbey.printf] using hj) ht
  | dispatch func context k ih =>
    intro s j t hj ht
    simp only [runWork]
    exact ih _ _ j t (dispatch_task_keeps func context s j t hj ht) ht

/-- A work function that does not dispatch leaves the whole table alone. -/
theorem runWork_noDispatch (w : Work M) : ∀ (s : Abbey M), w.noDispatch →
    (runWork w s).task = s.task := by
  induction w with
  | ret => intro s _; simp [runWork]
  | load k ih => intro s h; simpa [runWork] using ih s.mem s (h s.mem)
  | store m k ih => intro s h; simpa [runWork] using ih { s with mem := m } h
  | print text k ih =>
    intro s h
    simpa [runWork, Abbey.printf] using ih (s.printf (.output text)) h
  | dispatch func context k _ => intro s h; exact absurd h (by simp [Work.noDispatch])

/-! ## Output -/

theorem resumed_append (a b : List Event) : resumed (a ++ b) = resumed a ++ resumed b := by
  induction a with
  | nil => simp [resumed]
  | cons e es ih => cases e <;> simp [resumed, ih]

theorem calls_append (a b : List Event) : calls (a ++ b) = calls a ++ calls b := by
  induction a with
  | nil => simp [calls]
  | cons e es ih => cases e <;> simp [calls, ih]

theorem puts_append (a b : List Event) : puts (a ++ b) = puts a ++ puts b := by
  induction a with
  | nil => simp [puts]
  | cons e es ih => cases e <;> simp [puts, ih]

theorem dispatch_task_out (func context : Nat) (s : Abbey M) :
    resumed (dispatch_task func context s).2.out = resumed s.out ∧
    calls (dispatch_task func context s).2.out = calls s.out := by
  rcases dispatch_task_cases func context s with ⟨_, h⟩ | ⟨i, _, h⟩ <;>
    simp [h, Abbey.printf, resumed_append, calls_append, resumed, calls]

/-- A work function resumes no monk and makes no call of a slot itself. -/
theorem runWork_out (w : Work M) : ∀ s : Abbey M,
    resumed (runWork w s).out = resumed s.out ∧ calls (runWork w s).out = calls s.out := by
  induction w with
  | ret => intro s; simp [runWork]
  | load k ih => intro s; simpa [runWork] using ih s.mem s
  | store m k ih => intro s; simpa [runWork] using ih { s with mem := m }
  | print text k ih =>
    intro s
    simpa [runWork, Abbey.printf, resumed_append, calls_append, resumed, calls]
      using ih (s.printf (.output text))
  | dispatch func context k ih =>
    intro s
    have h := ih (dispatch_task func context s).1 (dispatch_task func context s).2
    have ho := dispatch_task_out func context s
    simp only [runWork]
    exact ⟨h.1.trans ho.1, h.2.trans ho.2⟩

/-! ## A turn of a resumed monk -/

theorem monking_resume_idle (code : Nat → Nat → Work M) (r : Int) (hr : r ≠ 0) (s : Abbey M)
    (h : firstSlot TS_EXECUTEME s.task = none) :
    monking_resume code r s =
      .toScheduler ((s.printf (.iterateTasks (r - 1))).printf .noTaskFound) := by
  have hr1 : r - 1 ≠ -1 := by omega
  simp [monking_resume, hr1, Abbey.printf, h]

theorem monking_resume_exec (code : Nat → Nat → Work M) (r : Int) (hr : r ≠ 0) (s : Abbey M)
    (i : Nat) (t : Task) (h : firstSlot TS_EXECUTEME s.task = some i) (ht : s.task[i]? = some t) :
    monking_resume code r s =
      .toScheduler
        { runWork (code t.func t.context)
            (((s.printf (.iterateTasks (r - 1))).printf (.executeTask i)).printf
              (.call i t.func t.context)) with
          task := (runWork (code t.func t.context)
            (((s.printf (.iterateTasks (r - 1))).printf (.executeTask i)).printf
              (.call i t.func t.context))).task.set i { t with state := TS_FREE } } := by
  have hr1 : r - 1 ≠ -1 := by omega
  obtain ⟨u, hu, hs⟩ := firstSlot_state TS_EXECUTEME s.task i h
  rw [ht] at hu
  cases hu
  have hne : t.state ≠ TS_FREE := by rw [hs]; decide
  have hk := runWork_keeps (code t.func t.context)
    (((s.printf (.iterateTasks (r - 1))).printf (.executeTask i)).printf
      (.call i t.func t.context)) i t (by simpa [Abbey.printf] using ht) hne
  have hd : s.task.getD i ⟨0, 0, 0⟩ = t := by simp [List.getD, ht]
  have hd2 : (runWork (code t.func t.context)
    (((s.printf (.iterateTasks (r - 1))).printf (.executeTask i)).printf
      (.call i t.func t.context))).task.getD i ⟨0, 0, 0⟩ = t := by simp [List.getD, hk]
  simp only [monking_resume, hr1, if_false, Abbey.printf, h, hd] at hd2 ⊢
  simp only [hd2]

theorem monking_resume_frame (code : Nat → Nat → Work M) (r : Int) (hr : r ≠ 0) (s : Abbey M) :
    ∃ s', monking_resume code r s = .toScheduler s' ∧
      s'.monk = s.monk ∧ s'.monkCount = s.monkCount ∧ s'.currentMonk = s.currentMonk ∧
      s'.timesScheduled = s.timesScheduled ∧ s'.task.length = s.task.length ∧
      resumed s'.out = resumed s.out := by
  cases h : firstSlot TS_EXECUTEME s.task with
  | none =>
    refine ⟨_, monking_resume_idle code r hr s h, ?_⟩
    simp [Abbey.printf, resumed_append, resumed]
  | some i =>
    obtain ⟨t, ht, _⟩ := firstSlot_state _ _ _ h
    refine ⟨_, monking_resume_exec code r hr s i t h ht, ?_⟩
    have hf := runWork_frame (code t.func t.context)
      (((s.printf (.iterateTasks (r - 1))).printf (.executeTask i)).printf
        (.call i t.func t.context))
    have ho := runWork_out (code t.func t.context)
      (((s.printf (.iterateTasks (r - 1))).printf (.executeTask i)).printf
        (.call i t.func t.context))
    simp [Abbey.printf] at hf ho
    simp [Abbey.printf, hf, ho, resumed_append, resumed]

/-! ## A scheduling cycle -/

theorem scheduler_resume_exit (code : Nat → Nat → Work M) (s : Abbey M)
    (h : s.timesScheduled = 0) :
    scheduler_resume code s = .exit 0 ({ s with timesScheduled := -1 }.printf .quit) := by
  simp [scheduler_resume, h]

theorem scheduler_resume_running (code : Nat → Nat → Work M) (N : Nat) (hN : 1 ≤ N)
    (s : Abbey M) (hb : Booted N s) (hlo : -1 ≤ s.currentMonk) (hts : s.timesScheduled ≠ 0) :
    ∃ s', scheduler_resume code s = .running s' ∧
      monking_resume code ((s.currentMonk + 1) % N + 1)
        ({ s with timesScheduled := s.timesScheduled - 1
                  currentMonk := (s.currentMonk + 1) % N }.printf
          (.jumpToMonk ((s.currentMonk + 1) % N))) = .toScheduler s' := by
  obtain ⟨hmc, hlen, henv⟩ := hb
  have hNpos : (0 : Int) < N := by exact_mod_cast hN
  have hN0 : (N : Int) ≠ 0 := by omega
  have hmc0 : s.monkCount ≠ 0 := by omega
  have hmod : (s.currentMonk + 1).tmod s.monkCount = (s.currentMonk + 1) % N := by
    rw [hmc]; exact Int.tmod_eq_emod (by omega) (by omega)
  have h0 : 0 ≤ (s.currentMonk + 1) % (N : Int) := Int.emod_nonneg _ hN0
  have h1 : (s.currentMonk + 1) % (N : Int) < N := Int.emod_lt_of_pos _ hNpos
  have hidx : ((s.currentMonk + 1) % (N : Int)).toNat < s.monk.length := by omega
  have hget : s.monk[((s.currentMonk + 1) % (N : Int)).toNat]? =
      some (s.monk[((s.currentMonk + 1) % (N : Int)).toNat]) := List.getElem?_eq_getElem hidx
  have hcap : (s.monk[((s.currentMonk + 1) % (N : Int)).toNat]).environment = true :=
    henv _ (List.getElem_mem _)
  have hval : longjmp_val ((s.currentMonk + 1) % (N : Int) + 1) = (s.currentMonk + 1) % (N : Int) + 1 := by
    have : (s.currentMonk + 1) % (N : Int) + 1 ≠ 0 := by omega
    simp [longjmp_val, this]
  obtain ⟨s', hs', _⟩ := monking_resume_frame code ((s.currentMonk + 1) % (N : Int) + 1) (by omega)
    ({ s with timesScheduled := s.timesScheduled - 1
              currentMonk := (s.currentMonk + 1) % N }.printf
      (.jumpToMonk ((s.currentMonk + 1) % N)))
  refine ⟨s', ?_, hs'⟩
  have hnlt : ¬ (s.currentMonk + 1) % (N : Int) < 0 := by omega
  simp only [Abbey.printf] at hs'
  simp [scheduler_resume, hts, hmc0, hmod, Abbey.printf, hnlt, hget, hcap, hval, hs']

/-! ## Booting -/

theorem monking_first (code : Nat → Nat → Work M) (index : Nat) (s : Abbey M) (m : Monk)
    (h : s.monk[index]? = some m) :
    monking code index s =
      some (.toMain { s with
        monk := s.monk.set index { m with environment := true }
        out := s.out ++ [.initMonk index] }) := by
  simp [monking, Abbey.printf, h, monking_resume]

theorem initialize_monks_spec (code : Nat → Nat → Work M) : ∀ (n i : Nat) (s : Abbey M),
    i + n = s.monk.length →
    (∀ j m, j < i → s.monk[j]? = some m → m.environment = true) →
    ∃ s', initialize_monks code n i s = some s' ∧
      s'.monk.length = s.monk.length ∧ (∀ m ∈ s'.monk, m.environment = true) ∧
      s'.task = s.task ∧ s'.monkCount = s.monkCount ∧ s'.currentMonk = s.currentMonk ∧
      s'.timesScheduled = s.timesScheduled ∧ s'.mem = s.mem ∧
      resumed s'.out = resumed s.out ∧ calls s'.out = calls s.out ∧ puts s'.out = puts s.out := by
  intro n
  induction n with
  | zero =>
    intro i s hlen hcap
    refine ⟨s, rfl, rfl, ?_, rfl, rfl, rfl, rfl, rfl, rfl, rfl, rfl⟩
    intro m hm
    obtain ⟨j, hj, rfl⟩ := List.getElem_of_mem hm
    exact hcap j _ (by omega) (List.getElem?_eq_getElem hj)
  | succ n ih =>
    intro i s hlen hcap
    have hi : i < s.monk.length := by omega
    have hget : s.monk[i]? = some (s.monk[i]) := List.getElem?_eq_getElem hi
    have hget2 : (s.monk.set i { s.monk[i] with number := i })[i]? =
        some { s.monk[i] with number := i } := by
      simp [List.getElem?_set_self, hi]
    have hm := monking_first code i { s with monk := s.monk.set i { s.monk[i] with number := i } }
      { s.monk[i] with number := i } hget2
    obtain ⟨s', hs', hl', hc', rest⟩ := ih (i + 1)
      { s with
        monk := (s.monk.set i { s.monk[i] with number := i }).set i
          { number := i, environment := true }
        out := s.out ++ [.initMonk i] }
      (by simp; omega)
      (by
        intro j m hj hjm
        by_cases hji : j = i
        · subst hji
          simp [List.getElem?_set_self, hi] at hjm
          rw [← hjm]
        · simp [List.getElem?_set_ne (Ne.symm hji)] at hjm
          exact hcap j m (by omega) hjm)
    refine ⟨s', ?_, by simpa using hl', hc', ?_⟩
    · simp only [initialize_monks, hget, hm]
      exact hs'
    · simpa [resumed_append, calls_append, puts_append, resumed, calls, puts] using rest

theorem initialize_monks_out (code : Nat → Nat → Work M) : ∀ (n i : Nat) (s s' : Abbey M),
    initialize_monks code n i s = some s' →
    s'.out = s.out ++ (List.range' i n).map (fun (j : Nat) => Event.initMonk (j : Int)) := by
  intro n
  induction n with
  | zero =>
    intro i s s' h
    simp [initialize_monks] at h
    subst h
    simp
  | succ n ih =>
    intro i s s' h
    simp only [initialize_monks] at h
    split at h
    · rename_i m hm
      have hi : i < s.monk.length := by
        by_contra hc
        rw [List.getElem?_eq_none (by omega)] at hm
        cases hm
      have hget2 : (s.monk.set i { m with number := i })[i]? = some { m with number := i } := by
        simp [List.getElem?_set_self, hi]
      rw [monking_first code i { s with monk := s.monk.set i { m with number := i } }
        { m with number := i } hget2] at h
      have h1 := ih _ _ _ h
      rw [h1, List.range'_succ]
      simp
    · cases h

/-- Booting: `start_abbey` enters the cycles in a state that differs from the
one it was called in only by captured environments and output. -/
theorem start_abbey_boot (code : Nat → Nat → Work M) (N : Nat) (fuel : Nat) (s : Abbey M)
    (hmc : s.monkCount = N) (hlen : s.monk.length = N) :
    ∃ s', start_abbey code fuel s = scheduling code fuel s' ∧ Booted N s' ∧
      s'.task = s.task ∧ s'.currentMonk = s.currentMonk ∧
      s'.timesScheduled = s.timesScheduled ∧ s'.mem = s.mem ∧
      resumed s'.out = resumed s.out ∧ calls s'.out = calls s.out ∧ puts s'.out = puts s.out ∧
      s'.out = s.out ++ [.abbeyStarted, .jumpToScheduler, .initScheduler, .initMonks] ++
        (List.range N).map (fun (j : Nat) => Event.initMonk (j : Int)) ++ [.startScheduling] := by
  obtain ⟨s', hs', hl', hc', ht', hm', hcur', hts', hmem', hr', hcl', hp'⟩ :=
    initialize_monks_spec code N 0
      ((((s.printf .abbeyStarted).printf .jumpToScheduler).printf .initScheduler).printf .initMonks)
      (by simp [Abbey.printf, hlen]) (by intro j m hj; omega)
  have hout := initialize_monks_out code N 0 _ s' hs'
  refine ⟨s'.printf .startScheduling, ?_, ⟨?_, ?_, ?_⟩, ?_, ?_, ?_, ?_, ?_, ?_, ?_, ?_⟩
  · simp only [start_abbey, scheduler]
    have : (((((s.printf .abbeyStarted).printf .jumpToScheduler).printf .initScheduler).printf
        .initMonks).monkCount).toNat = N := by simp [Abbey.printf, hmc]
    rw [this, hs']
  · simpa [Abbey.printf, hmc] using hm'
  · simpa [Abbey.printf, hlen] using hl'
  · simpa [Abbey.printf] using hc'
  · simpa [Abbey.printf] using ht'
  · simpa [Abbey.printf] using hcur'
  · simpa [Abbey.printf] using hts'
  · simpa [Abbey.printf] using hmem'
  · simp [Abbey.printf] at hr'
    simp [Abbey.printf, resumed_append, hr', resumed]
  · simp [Abbey.printf] at hcl'
    simp [Abbey.printf, calls_append, hcl', calls]
  · simp [Abbey.printf] at hp'
    simp [Abbey.printf, puts_append, hp', puts]
  · simp only [Abbey.printf, hout, List.range_eq_range']
    simp

/-! ## Runs of cycles -/

/-- One cycle in a booted state with budget left: what it does to the scheduler. -/
theorem scheduler_resume_step (code : Nat → Nat → Work M) (N : Nat) (hN : 1 ≤ N)
    (s : Abbey M) (hb : Booted N s) (hlo : -1 ≤ s.currentMonk) (hts : s.timesScheduled ≠ 0) :
    ∃ s', scheduler_resume code s = .running s' ∧ Booted N s' ∧
      s'.currentMonk = (s.currentMonk + 1) % N ∧
      s'.timesScheduled = s.timesScheduled - 1 ∧
      s'.task.length = s.task.length ∧
      resumed s'.out = resumed s.out ++ [(s.currentMonk + 1) % N] := by
  obtain ⟨s', hs', hm'⟩ := scheduler_resume_running code N hN s hb hlo hts
  have hNpos : (0 : Int) < N := by exact_mod_cast hN
  have h0 : 0 ≤ (s.currentMonk + 1) % (N : Int) := Int.emod_nonneg _ (by omega)
  obtain ⟨s'', hs'', hmonk, hmc, hcur, hbud, hlen, hres⟩ :=
    monking_resume_frame code ((s.currentMonk + 1) % (N : Int) + 1) (by omega)
      ({ s with timesScheduled := s.timesScheduled - 1
                currentMonk := (s.currentMonk + 1) % N }.printf
        (.jumpToMonk ((s.currentMonk + 1) % N)))
  rw [hm'] at hs''
  cases hs''
  obtain ⟨b1, b2, b3⟩ := hb
  simp [Abbey.printf] at hmonk hmc hcur hbud hlen hres
  refine ⟨s', hs', ⟨by rw [hmc, b1], by rw [hmonk, b2], by rw [hmonk]; exact b3⟩,
    hcur, hbud, hlen, ?_⟩
  simp [hres, resumed_append, resumed]

/-- With budget for them, `k` cycles resume the monks in cyclic order. -/
theorem scheduling_running (code : Nat → Nat → Work M) (N : Nat) (hN : 1 ≤ N) :
    ∀ (k : Nat) (s : Abbey M), Booted N s → -1 ≤ s.currentMonk → (k : Int) ≤ s.timesScheduled →
    ∃ s', scheduling code k s = .running s' ∧ Booted N s' ∧ -1 ≤ s'.currentMonk ∧
      s'.timesScheduled = s.timesScheduled - k ∧
      s'.task.length = s.task.length ∧
      resumed s'.out =
        resumed s.out ++ (List.range k).map (fun (j : Nat) => (s.currentMonk + 1 + (j : Int)) % (N : Int)) := by
  intro k
  induction k with
  | zero =>
    intro s hb hlo _
    exact ⟨s, rfl, hb, hlo, by simp, rfl, by simp⟩
  | succ k ih =>
    intro s hb hlo hk
    have hts : s.timesScheduled ≠ 0 := by omega
    obtain ⟨s1, hs1, hb1, hcur1, hbud1, hlen1, hres1⟩ :=
      scheduler_resume_step code N hN s hb hlo hts
    have hNpos : (0 : Int) < N := by exact_mod_cast hN
    have h0 : 0 ≤ (s.currentMonk + 1) % (N : Int) := Int.emod_nonneg _ (by omega)
    obtain ⟨s', hs', hb', hlo', hbud', hlen', hres'⟩ :=
      ih s1 hb1 (by omega) (by omega)
    refine ⟨s', ?_, hb', hlo', ?_, by omega, ?_⟩
    · simp only [scheduling, hs1]
      exact hs'
    · rw [hbud', hbud1]; push_cast; ring
    · rw [hres', hres1, hcur1, List.range_succ_eq_map]
      simp only [List.map_cons, List.map_map, List.append_assoc, List.singleton_append]
      congr 1
      congr 1
      · simp
      · apply List.map_congr_left
        intro j _
        simp only [Function.comp, Nat.succ_eq_add_one]
        rw [Int.add_assoc, Int.emod_add_emod]
        congr 1
        push_cast
        ring

theorem readyCount_set : ∀ (l : List Task) (i : Nat) (t new : Task), l[i]? = some t →
    readyCount (l.set i new) + (if t.state = TS_EXECUTEME then 1 else 0) =
      readyCount l + (if new.state = TS_EXECUTEME then 1 else 0)
  | [], i, t, new, h => by simp at h
  | u :: us, 0, t, new, h => by
    simp at h
    subst h
    simp only [readyCount, List.set_cons_zero, List.countP_cons, decide_eq_true_eq]
    omega
  | u :: us, i + 1, t, new, h => by
    simp at h
    have ih := readyCount_set us i t new h
    simp only [readyCount, List.set_cons_succ, List.countP_cons] at ih ⊢
    omega

theorem TwoState_set (l : List Task) (i : Nat) (new : Task) (h : TwoState l)
    (hn : new.state = TS_FREE ∨ new.state = TS_EXECUTEME) : TwoState (l.set i new) := by
  intro t ht
  rcases List.mem_or_eq_of_mem_set ht with h1 | h1
  · exact h t h1
  · rw [h1]; exact hn

theorem dispatch_task_twoState (func context : Nat) (s : Abbey M) (h : TwoState s.task) :
    TwoState (dispatch_task func context s).2.task := by
  rcases dispatch_task_cases func context s with ⟨_, e⟩ | ⟨i, _, e⟩
  · simpa [e, Abbey.printf] using h
  · simp only [e]
    exact TwoState_set s.task i _ h (Or.inr rfl)

theorem runWork_twoState (w : Work M) : ∀ s : Abbey M, TwoState s.task →
    TwoState (runWork w s).task := by
  induction w with
  | ret => intro s h; simpa [runWork] using h
  | load k ih => intro s h; simpa [runWork] using ih s.mem s h
  | store m k ih => intro s h; simpa [runWork] using ih { s with mem := m } h
  | print text k ih =>
    intro s h
    simpa [runWork] using ih (s.printf (.output text)) (by simpa [Abbey.printf] using h)
  | dispatch func context k ih =>
    intro s h
    simp only [runWork]
    exact ih _ _ (dispatch_task_twoState func context s h)

theorem monking_resume_twoState (code : Nat → Nat → Work M) (r : Int) (s s' : Abbey M)
    (hs : monking_resume code r s = .toScheduler s') (h : TwoState s.task) :
    TwoState s'.task := by
  by_cases hr : r = 0
  · subst hr
    simp [monking_resume] at hs
  · cases hf : firstSlot TS_EXECUTEME s.task with
    | none =>
      rw [monking_resume_idle code r hr s hf] at hs
      cases hs
      simpa [Abbey.printf] using h
    | some i =>
      obtain ⟨t, ht, _⟩ := firstSlot_state _ _ _ hf
      rw [monking_resume_exec code r hr s i t hf ht] at hs
      cases hs
      exact TwoState_set _ i _ (runWork_twoState _ _ (by simpa [Abbey.printf] using h))
        (Or.inl rfl)

theorem monking_resume_length (code : Nat → Nat → Work M) (r : Int) (s s' : Abbey M)
    (hs : monking_resume code r s = .toScheduler s') : s'.task.length = s.task.length := by
  by_cases hr : r = 0
  · subst hr
    simp [monking_resume] at hs
  · obtain ⟨s'', h1, _, _, _, _, hl, _⟩ := monking_resume_frame code r hr s
    rw [hs] at h1
    cases h1
    exact hl

/-- What a cycle that comes back to the scheduler consists of: some output
and the turn of a resumed monk. -/
theorem scheduler_resume_running_inv (code : Nat → Nat → Work M) (s s' : Abbey M)
    (h : scheduler_resume code s = .running s') :
    ∃ r s1, monking_resume code r s1 = .toScheduler s' ∧ s1.task = s.task ∧
      puts s1.out = puts s.out ∧ calls s1.out = calls s.out := by
  simp only [scheduler_resume] at h
  split at h
  · cases h
  · split at h
    · cases h
    · split at h
      · cases h
      · split at h
        · split at h
          · split at h
            · rename_i s2 hm
              cases h
              refine ⟨_, _, hm, ?_⟩
              simp [Abbey.printf, puts_append, calls_append, puts, calls]
            · cases h
          · cases h
        · cases h

theorem scheduler_resume_exit_inv (code : Nat → Nat → Work M) (status : Int) (s s' : Abbey M)
    (h : scheduler_resume code s = .exit status s') :
    s'.task = s.task ∧ puts s'.out = puts s.out ∧ calls s'.out = calls s.out := by
  simp only [scheduler_resume] at h
  split at h
  · cases h
    simp [Abbey.printf, puts_append, calls_append, puts, calls]
  · split at h
    · cases h
    · split at h
      · cases h
      · split at h
        · split at h
          · split at h
            · cases h
            · cases h
          · cases h
        · cases h

theorem initialize_monks_inv (code : Nat → Nat → Work M) : ∀ (n i : Nat) (s s' : Abbey M),
    initialize_monks code n i s = some s' →
    s'.task = s.task ∧ puts s'.out = puts s.out ∧ calls s'.out = calls s.out := by
  intro n
  induction n with
  | zero =>
    intro i s s' h
    simp [initialize_monks] at h
    subst h
    exact ⟨rfl, rfl, rfl⟩
  | succ n ih =>
    intro i s s' h
    simp only [initialize_monks] at h
    split at h
    · rename_i m hm
      have hi : i < s.monk.length := by
        by_contra hc
        rw [List.getElem?_eq_none (by omega)] at hm
        cases hm
      have hget2 : (s.monk.set i { m with number := i })[i]? = some { m with number := i } := by
        simp [List.getElem?_set_self, hi]
      rw [monking_first code i { s with monk := s.monk.set i { m with number := i } }
        { m with number := i } hget2] at h
      obtain ⟨h1, h2, h3⟩ := ih _ _ _ h
      simp [puts_append, calls_append, puts, calls] at h1 h2 h3
      exact ⟨h1, h2, h3⟩
    · cases h

theorem start_abbey_boot_inv (code : Nat → Nat → Work M) (s s' : Abbey M)
    (h : start_abbey code 0 s = .running s') :
    s'.task = s.task ∧ puts s'.out = puts s.out ∧ calls s'.out = calls s.out := by
  simp only [start_abbey, scheduler] at h
  split at h
  · rename_i s1 hs1
    simp only [scheduling] at h
    cases h
    obtain ⟨h1, h2, h3⟩ := initialize_monks_inv code _ _ _ _ hs1
    simp [Abbey.printf, puts_append, calls_append, puts, calls] at h1 h2 h3
    simp [Abbey.printf, puts_append, calls_append, puts, calls, h1, h2, h3]
  · cases h

/-- Between turns the table has its initial size and only the two states. -/
theorem Reachable_table (code : Nat → Nat → Work M) (nofMonks nofTasks : Int) (s : Abbey M)
    (h : Reachable code nofMonks nofTasks s) :
    s.task.length = nofTasks.toNat ∧ TwoState s.task := by
  induction h with
  | init g _ =>
    refine ⟨by simp [initialize_abbey], ?_⟩
    intro t ht
    simp [initialize_abbey] at ht
    left
    rw [ht.2]
    rfl
  | dispatch func context s _ ih =>
    exact ⟨(dispatch_task_frame func context s).2.2.2.2.2.trans ih.1,
      dispatch_task_twoState func context s ih.2⟩
  | turn r s s' _ hs ih =>
    exact ⟨(monking_resume_length code r s s' hs).trans ih.1,
      monking_resume_twoState code r s s' hs ih.2⟩
  | boot s s' _ hs ih =>
    rw [(start_abbey_boot_inv code s s' hs).1]
    exact ih
  | cycle s s' _ hs ih =>
    obtain ⟨r, s1, hm, ht, _⟩ := scheduler_resume_running_inv code s s' hs
    rw [← ht] at ih
    exact ⟨(monking_resume_length code r s1 s' hm).trans ih.1,
      monking_resume_twoState code r s1 s' hm ih.2⟩
  | quit status s s' _ hs ih =>
    rw [(scheduler_resume_exit_inv code status s s' hs).1]
    exact ih

/-- In a table of the two states, `dispatch_task` fails exactly when every
slot is waiting. -/
theorem dispatch_task_full_iff (func context : Nat) (s : Abbey M) (h : TwoState s.task) :
    (dispatch_task func context s).1 = 1 ↔ readyCount s.task = s.task.length := by
  unfold readyCount
  rw [List.countP_eq_length]
  constructor
  · intro h1
    rcases dispatch_task_cases func context s with ⟨hn, _⟩ | ⟨i, _, e⟩
    · intro t ht
      have := (firstSlot_none TS_FREE s.task).1 hn t ht
      rcases h t ht with h0 | h0
      · exact absurd h0 this
      · simpa using h0
    · rw [e] at h1
      simp at h1
  · intro hall
    have hn : firstSlot TS_FREE s.task = none := by
      rw [firstSlot_none]
      intro t ht h0
      have h1 := hall t ht
      simp only [decide_eq_true_eq] at h1
      rw [h0] at h1
      exact absurd h1 (by decide)
    rw [dispatch_task_full func context s hn]

/-- C3 (capacity invariant): in every state reached from
`initialize_abbey(N, C)` by calls of `dispatch_task` and turns of resumed
monks, the table has `C` slots, at most `C` of them are `TS_EXECUTEME`, and
`dispatch_task` returns `1` exactly when all `C` are; otherwise it returns
`0`. -/
theorem capacity_invariant (code : Nat → Nat → Work M) (N : Int) (C : Nat) (s : Abbey M)
    (h : Reachable code N C s) :
    s.task.length = C ∧ readyCount s.task ≤ C ∧
    ∀ func context,
      ((dispatch_task func context s).1 = 1 ↔ readyCount s.task = C) ∧
      (readyCount s.task ≠ C → (dispatch_task func context s).1 = 0) := by
  obtain ⟨hl, h2⟩ := Reachable_table code N C s h
  simp only [Int.toNat_ofNat] at hl
  refine ⟨hl, ?_, ?_⟩
  · rw [← hl]
    exact List.countP_le_length _
  · intro func context
    have hiff := dispatch_task_full_iff func context s h2
    rw [hl] at hiff
    refine ⟨hiff, ?_⟩
    intro hne
    rcases dispatch_task_cases func context s with ⟨_, e⟩ | ⟨i, _, e⟩
    · exact absurd (hiff.1 (by rw [e])) hne
    · rw [e]

/-- Witness of C3: a table of one slot after one dispatch is full. -/
theorem capacity_invariant_witness :
    (dispatch_task 5 0 (initialize_abbey 1 1 (globals ())).2).2.task.length = 1 ∧
    (dispatch_task 6 0 (dispatch_task 5 0 (initialize_abbey 1 1 (globals ())).2).2).1 = 1 := by
  have h := capacity_invariant (fun _ _ => Work.ret) 1 1
    (dispatch_task 5 0 (initialize_abbey 1 1 (globals ())).2).2
    (Reachable.dispatch 5 0 _ (Reachable.init (globals ()) rfl))
  exact ⟨h.1, ((h.2.2 6 0).1).2 (by decide)⟩

/-- C4 (successful dispatch): when the table has a free slot, `dispatch_task`
returns `0` and writes exactly the lowest-index free slot `i`: it becomes
`TS_EXECUTEME` with the given function and argument, every other slot and the
size of the table stay as they were, and the number of waiting slots grows by
one. -/
theorem dispatch_task_success (func context : Nat) (s : Abbey M)
    (h : ∃ t ∈ s.task, t.state = TS_FREE) :
    ∃ (i : Nat) (t : Task), s.task[i]? = some t ∧ t.state = TS_FREE ∧
      (∀ j u, j < i → s.task[j]? = some u → u.state ≠ TS_FREE) ∧
      (dispatch_task func context s).1 = 0 ∧
      (dispatch_task func context s).2.task[i]? = some ⟨TS_EXECUTEME, func, context⟩ ∧
      (∀ j, j ≠ i → (dispatch_task func context s).2.task[j]? = s.task[j]?) ∧
      (dispatch_task func context s).2.task.length = s.task.length ∧
      readyCount (dispatch_task func context s).2.task = readyCount s.task + 1 := by
  obtain ⟨i, hi⟩ := firstSlot_isSome TS_FREE s.task h
  obtain ⟨t, ht, hs⟩ := firstSlot_state TS_FREE s.task i hi
  have hlt := firstSlot_lt TS_FREE s.task i hi
  have hc := readyCount_set s.task i t ⟨TS_EXECUTEME, func, context⟩ ht
  have hne : ¬ t.state = TS_EXECUTEME := by rw [hs]; decide
  simp only [hne, if_false, if_true, Nat.add_zero] at hc
  refine ⟨i, t, ht, hs, fun j u hj hu => firstSlot_before TS_FREE s.task i hi j hj u hu, ?_⟩
  rw [dispatch_task_ok func context s i hi]
  refine ⟨rfl, ?_, ?_, ?_, hc⟩
  · simp [List.getElem?_set_self, hlt]
  · intro j hj
    simp [List.getElem?_set_ne (Ne.symm hj)]
  · simp

/-- Witness of C4: a dispatch into a table whose slot 0 is taken lands in
slot 1. -/
theorem dispatch_task_success_witness :
    (dispatch_task 6 2 (dispatch_task 5 0 (initialize_abbey 1 3 (globals ())).2).2).2.task =
      [⟨1, 5, 0⟩, ⟨1, 6, 2⟩, ⟨0, 0, 0⟩] ∧
    ∃ (i : Nat) (t : Task),
      (dispatch_task 5 0 (initialize_abbey 1 3 (globals ())).2).2.task[i]? = some t ∧
      (dispatch_task 6 2 (dispatch_task 5 0 (initialize_abbey 1 3 (globals ())).2).2).1 = 0 := by
  refine ⟨by decide, ?_⟩
  obtain ⟨i, t, h1, _, _, h4, _⟩ := dispatch_task_success 6 2
    (dispatch_task 5 0 (initialize_abbey 1 3 (globals ())).2).2
    ⟨⟨0, 0, 0⟩, by decide, rfl⟩
  exact ⟨i, t, h1, h4⟩

/-- C5 (failed dispatch is atomic): when `dispatch_task` returns `1`, the task
table, the cursor `currentMonk`, the budget `timesScheduled`, the monks and
the memory of the work functions are what they were; only the return value
(and the line printed on entry) tells. -/
theorem dispatch_task_failure (func context : Nat) (s : Abbey M)
    (h : (dispatch_task func context s).1 = 1) :
    (dispatch_task func context s).2.task = s.task ∧
    (dispatch_task func context s).2.currentMonk = s.currentMonk ∧
    (dispatch_task func context s).2.timesScheduled = s.timesScheduled ∧
    (dispatch_task func context s).2.monk = s.monk ∧
    (dispatch_task func context s).2.monkCount = s.monkCount ∧
    (dispatch_task func context s).2.mem = s.mem ∧
    (dispatch_task func context s).2.out = s.out ++ [.taskDispatched] := by
  rcases dispatch_task_cases func context s with ⟨_, e⟩ | ⟨i, _, e⟩
  · simp [e, Abbey.printf]
  · rw [e] at h
    simp at h

/-- Witness of C5: the second dispatch into a table of one slot. -/
theorem dispatch_task_failure_witness :
    (dispatch_task 6 0 (dispatch_task 5 0 (initialize_abbey 1 1 (globals ())).2).2).1 = 1 ∧
    (dispatch_task 6 0 (dispatch_task 5 0 (initialize_abbey 1 1 (globals ())).2).2).2.task =
      (dispatch_task 5 0 (initialize_abbey 1 1 (globals ())).2).2.task :=
  ⟨by decide, (dispatch_task_failure 6 0
    (dispatch_task 5 0 (initialize_abbey 1 1 (globals ())).2).2 (by decide)).1⟩

/-! ## The turn of a resumed monk -/

/-- C7 (turn with no work): when no slot is `TS_EXECUTEME`, a resumed monk
calls no work function, leaves the table and the memory alone and jumps to the
scheduler; and a whole cycle moves the cursor to `(currentMonk + 1) mod N` and
takes one off the budget, the same as the cycle does from any other table. -/
theorem monking_turn_idle (code : Nat → Nat → Work M) (N : Nat) (s : Abbey M)
    (task2 : List Task) (hN : 1 ≤ N) (hb : Booted N s) (hlo : -1 ≤ s.currentMonk)
    (hts : s.timesScheduled ≠ 0) (hidle : ∀ t ∈ s.task, t.state ≠ TS_EXECUTEME) :
    (∀ r, r ≠ 0 → ∃ s', monking_resume code r s = .toScheduler s' ∧
      s'.task = s.task ∧ calls s'.out = calls s.out ∧ s'.mem = s.mem) ∧
    ∃ s' s2', scheduler_resume code s = .running s' ∧
      s'.task = s.task ∧ calls s'.out = calls s.out ∧ s'.mem = s.mem ∧
      s'.currentMonk = (s.currentMonk + 1) % N ∧
      s'.timesScheduled = s.timesScheduled - 1 ∧
      scheduler_resume code { s with task := task2 } = .running s2' ∧
      s2'.currentMonk = s'.currentMonk ∧ s2'.timesScheduled = s'.timesScheduled := by
  have hnone : firstSlot TS_EXECUTEME s.task = none := (firstSlot_none _ _).2 hidle
  constructor
  · intro r hr
    refine ⟨_, monking_resume_idle code r hr s hnone, ?_⟩
    simp [Abbey.printf, calls_append, calls]
  · obtain ⟨s', hs', hm'⟩ := scheduler_resume_running code N hN s hb hlo hts
    obtain ⟨s2', hs2', _, hc2, hb2, _⟩ :=
      scheduler_resume_step code N hN { s with task := task2 } hb hlo hts
    have hNpos : (0 : Int) < N := by exact_mod_cast hN
    have h0 : 0 ≤ (s.currentMonk + 1) % (N : Int) := Int.emod_nonneg _ (by omega)
    rw [monking_resume_idle code _ (by omega) _ (by simpa [Abbey.printf] using hnone)] at hm'
    cases hm'
    refine ⟨_, s2', hs', ?_⟩
    simp [Abbey.printf, calls_append, calls, hs2', hc2, hb2]

/-- Witness of C7: one monk, an empty table of two slots. -/
theorem monking_turn_idle_witness :
    ∃ (s' : Abbey Unit),
      scheduler_resume (fun _ _ => Work.ret)
        { globals () with task := [⟨0, 0, 0⟩, ⟨0, 0, 0⟩], monk := [⟨0, true⟩], monkCount := 1 } =
        .running s' ∧
      s'.task = [⟨0, 0, 0⟩, ⟨0, 0, 0⟩] ∧ s'.currentMonk = 0 ∧ s'.timesScheduled = 7 := by
  obtain ⟨s', _, h1, h2, _, _, h5, h6, _⟩ := (monking_turn_idle (fun _ _ => Work.ret) 1
    { globals () with task := [⟨0, 0, 0⟩, ⟨0, 0, 0⟩], monk := [⟨0, true⟩], monkCount := 1 }
    [⟨1, 7, 3⟩] (by decide) ⟨rfl, rfl, by simp [globals]⟩ (by decide) (by decide)
    (by decide)).2
  exact ⟨s', h1, h2, by simpa [globals] using h5, by simpa [globals, MAX_COUNT] using h6⟩

/-! ## Accounting for dispatched tasks -/

theorem firstSlot_append (st : Int) (b : List Task) : ∀ (a : List Task),
    (∀ t ∈ a, t.state ≠ st) → firstSlot st (a ++ b) = (firstSlot st b).map (· + a.length)
  | [], _ => by simp
  | t :: ts, h => by
    have ht : ¬ t.state = st := h t (by simp)
    have ih := firstSlot_append st b ts (fun u hu => h u (by simp [hu]))
    rw [List.cons_append, firstSlot, if_neg ht, ih]
    cases firstSlot st b with
    | none => rfl
    | some j => simp [Nat.add_assoc]

theorem set_append_length (b : List Task) (x new : Task) : ∀ (a : List Task),
    (a ++ x :: b).set a.length new = a ++ new :: b
  | [] => by simp
  | t :: ts => by simp [set_append_length b x new ts]

/-- Dispatching into a table whose free slots are the last `n`: the first `n`
calls fill them in order and return `0`, all later calls return `1`. -/
theorem dispatch_all_fill : ∀ (ds : List (Nat × Nat)) (filled : List Task) (n : Nat) (s : Abbey M),
    s.task = filled ++ List.replicate n ⟨TS_FREE, 0, 0⟩ →
    (∀ t ∈ filled, t.state ≠ TS_FREE) →
    (dispatch_all ds s).1 =
      List.replicate (min ds.length n) 0 ++ List.replicate (ds.length - n) 1 ∧
    (dispatch_all ds s).2.task =
      filled ++ (ds.take n).map (fun d => ⟨TS_EXECUTEME, d.1, d.2⟩) ++
        List.replicate (n - ds.length) ⟨TS_FREE, 0, 0⟩
  | [], filled, n, s, hs, _ => by simp [dispatch_all, hs]
  | d :: ds, filled, 0, s, hs, hf => by
    have hnone : firstSlot TS_FREE s.task = none := by
      rw [firstSlot_none, hs]
      simpa using hf
    have e := dispatch_task_full d.1 d.2 s hnone
    have ih := dispatch_all_fill ds filled 0 (s.printf .taskDispatched)
      (by simpa [Abbey.printf] using hs) hf
    simp only [dispatch_all, e]
    simp only [Nat.min_zero, List.replicate_zero, List.nil_append, Nat.sub_zero,
      List.take_zero, List.map_nil, List.append_nil, Nat.zero_sub] at ih ⊢
    rw [ih.1, ih.2]
    simp [List.replicate_succ]
  | d :: ds, filled, n + 1, s, hs, hf => by
    have hsome : firstSlot TS_FREE s.task = some filled.length := by
      rw [hs, firstSlot_append TS_FREE _ filled hf]
      simp [List.replicate_succ, firstSlot]
    have e := dispatch_task_ok d.1 d.2 s filled.length hsome
    have ih := dispatch_all_fill ds (filled ++ [⟨TS_EXECUTEME, d.1, d.2⟩]) n
      { s with
          task := s.task.set filled.length ⟨TS_EXECUTEME, d.1, d.2⟩
          out := s.out ++ [.taskDispatched, .taskPut filled.length d.1 d.2] }
      (by
        simp only [hs, List.replicate_succ]
        rw [set_append_length]
        simp)
      (by
        intro t ht
        rcases List.mem_append.1 ht with h1 | h1
        · exact hf t h1
        · simp at h1
          rw [h1]
          simp [TS_EXECUTEME, TS_FREE])
    simp only [dispatch_all, e]
    rw [ih.1, ih.2]
    constructor
    · simp only [List.length_cons, Nat.add_sub_add_right, Nat.add_min_add_right,
        List.replicate_succ, List.cons_append]
    · simp [List.take_succ_cons]

/-- C9 (fresh table): right after `initialize_abbey(N, C)` the table has `C`
slots, all `TS_FREE`; of any series of dispatches that follows at once, the
first `C` return `0` and the `k`-th of them fills slot `k` (the table after
them is the dispatched tasks in order, followed by the slots still free), and
the call number `C + 1` and all later ones return `1`. -/
theorem fresh_table (N : Int) (C : Nat) (g : Abbey M) (ds : List (Nat × Nat)) :
    (initialize_abbey N C g).2.task.length = C ∧
    (∀ t ∈ (initialize_abbey N C g).2.task, t.state = TS_FREE) ∧
    (dispatch_all ds (initialize_abbey N C g).2).1 =
      List.replicate (min ds.length C) 0 ++ List.replicate (ds.length - C) 1 ∧
    (dispatch_all ds (initialize_abbey N C g).2).2.task =
      (ds.take C).map (fun d => ⟨TS_EXECUTEME, d.1, d.2⟩) ++
        List.replicate (C - ds.length) ⟨TS_FREE, 0, 0⟩ := by
  have h := dispatch_all_fill ds [] C (initialize_abbey N C g).2
    (by simp [initialize_abbey, TS_FREE]) (by simp)
  refine ⟨by simp [initialize_abbey], ?_, h.1, by simpa using h.2⟩
  intro t ht
  simp [initialize_abbey] at ht
  rw [ht.2]
  rfl

/-! ## Cycles seen from the table -/

theorem scheduling_succ (code : Nat → Nat → Work M) (n : Nat) (s s1 : Abbey M)
    (h : scheduler_resume code s = .running s1) :
    scheduling code (n + 1) s = scheduling code n s1 := by
  simp only [scheduling, h]

/-- A cycle that finds no waiting slot. -/
theorem scheduler_resume_idle (code : Nat → Nat → Work M) (N : Nat) (hN : 1 ≤ N)
    (s : Abbey M) (hb : Booted N s) (hlo : -1 ≤ s.currentMonk) (hts : s.timesScheduled ≠ 0)
    (hidle : firstSlot TS_EXECUTEME s.task = none) :
    ∃ s', scheduler_resume code s = .running s' ∧ Booted N s' ∧ -1 ≤ s'.currentMonk ∧
      s'.currentMonk = (s.currentMonk + 1) % N ∧
      s'.timesScheduled = s.timesScheduled - 1 ∧ s'.task = s.task ∧ s'.mem = s.mem ∧
      calls s'.out = calls s.out := by
  obtain ⟨s', hs', hb', hc', ht', _, _⟩ := scheduler_resume_step code N hN s hb hlo hts
  obtain ⟨s'', hs'', hm'⟩ := scheduler_resume_running code N hN s hb hlo hts
  rw [hs'] at hs''
  cases hs''
  have hNpos : (0 : Int) < N := by exact_mod_cast hN
  have h0 : 0 ≤ (s.currentMonk + 1) % (N : Int) := Int.emod_nonneg _ (by omega)
  rw [monking_resume_idle code _ (by omega) _ (by simpa [Abbey.printf] using hidle)] at hm'
  cases hm'
  refine ⟨_, hs', hb', by rw [hc']; omega, hc', ht', ?_⟩
  simp [Abbey.printf, calls_append, calls]

/-- A cycle that finds slot `i` waiting: the state after it is the state after
the work function, with slot `i` set free. -/
theorem scheduler_resume_exec (code : Nat → Nat → Work M) (N : Nat) (hN : 1 ≤ N)
    (s : Abbey M) (hb : Booted N s) (hlo : -1 ≤ s.currentMonk) (hts : s.timesScheduled ≠ 0)
    (i : Nat) (t : Task) (hf : firstSlot TS_EXECUTEME s.task = some i)
    (ht : s.task[i]? = some t) :
    ∃ s' pre, scheduler_resume code s = .running s' ∧ Booted N s' ∧ -1 ≤ s'.currentMonk ∧
      s'.currentMonk = (s.currentMonk + 1) % N ∧
      s'.timesScheduled = s.timesScheduled - 1 ∧
      pre.task = s.task ∧ pre.mem = s.mem ∧
      calls pre.out = calls s.out ++ [(i, t.func, t.context)] ∧
      s'.task = (runWork (code t.func t.context) pre).task.set i { t with state := TS_FREE } ∧
      s'.mem = (runWork (code t.func t.context) pre).mem ∧
      s'.out = (runWork (code t.func t.context) pre).out := by
  obtain ⟨s', hs', hb', hc', ht', _, _⟩ := scheduler_resume_step code N hN s hb hlo hts
  obtain ⟨s'', hs'', hm'⟩ := scheduler_resume_running code N hN s hb hlo hts
  rw [hs'] at hs''
  cases hs''
  have hNpos : (0 : Int) < N := by exact_mod_cast hN
  have h0 : 0 ≤ (s.currentMonk + 1) % (N : Int) := Int.emod_nonneg _ (by omega)
  rw [monking_resume_exec code _ (by omega) _ i t (by simpa [Abbey.printf] using hf)
    (by simpa [Abbey.printf] using ht)] at hm'
  cases hm'
  refine ⟨_, _, hs', hb', by rw [hc']; omega, hc', ht', ?_, ?_, ?_, rfl, rfl, rfl⟩
  · simp [Abbey.printf]
  · simp [Abbey.printf]
  · simp [Abbey.printf, calls_append, calls]

/-- Once nothing is waiting, the cycles left change neither the table nor the
memory, and the run exits when the budget is used up. -/
theorem scheduling_idle_exit (code : Nat → Nat → Work M) (N : Nat) (hN : 1 ≤ N) :
    ∀ (b fuel : Nat) (s : Abbey M), Booted N s → -1 ≤ s.currentMonk →
      s.timesScheduled = b → b < fuel → firstSlot TS_EXECUTEME s.task = none →
      ∃ s', scheduling code fuel s = .exit 0 s' ∧ s'.task = s.task ∧ s'.mem = s.mem ∧
        calls s'.out = calls s.out := by
  intro b
  induction b with
  | zero =>
    intro fuel s _ _ hts hfuel _
    obtain ⟨n, rfl⟩ : ∃ n, fuel = n + 1 := ⟨fuel - 1, by omega⟩
    refine ⟨{ s with timesScheduled := -1 }.printf .quit, ?_, ?_⟩
    · simp only [scheduling, scheduler_resume_exit code s (by simpa using hts)]
    · simp [Abbey.printf, calls_append, calls]
  | succ b ih =>
    intro fuel s hb hlo hts hfuel hidle
    obtain ⟨n, rfl⟩ : ∃ n, fuel = n + 1 := ⟨fuel - 1, by omega⟩
    obtain ⟨s1, hs1, hb1, hlo1, _, hts1, htask1, hmem1, hcalls1⟩ :=
      scheduler_resume_idle code N hN s hb hlo (by omega) hidle
    obtain ⟨s', hs', h1, h2, h3⟩ := ih n s1 hb1 hlo1 (by rw [hts1, hts]; push_cast; omega)
      (by omega) (by rw [htask1]; exact hidle)
    exact ⟨s', by rw [scheduling_succ code n s s1 hs1]; exact hs',
      h1.trans htask1, h2.trans hmem1, h3.trans hcalls1⟩

/-! ## The counter scenario -/

theorem runWork_increment (a : Nat) (s : Abbey (Nat → Int)) :
    runWork (increment a) s = { s with mem := Function.update s.mem a (s.mem a + 1) } := by
  simp [increment, runWork]

/-- A cycle that finds an incrementing task in slot `i`. -/
theorem scheduler_resume_increment (code : Nat → Nat → Work (Nat → Int)) (N : Nat) (hN : 1 ≤ N)
    (s : Abbey (Nat → Int)) (hb : Booted N s) (hlo : -1 ≤ s.currentMonk)
    (hts : s.timesScheduled ≠ 0) (i func a : Nat) (hcode : code func a = increment a)
    (hf : firstSlot TS_EXECUTEME s.task = some i)
    (ht : s.task[i]? = some ⟨TS_EXECUTEME, func, a⟩) :
    ∃ s', scheduler_resume code s = .running s' ∧ Booted N s' ∧ -1 ≤ s'.currentMonk ∧
      s'.timesScheduled = s.timesScheduled - 1 ∧
      s'.task = s.task.set i ⟨TS_FREE, func, a⟩ ∧ s'.mem a = s.mem a + 1 ∧
      calls s'.out = calls s.out ++ [(i, func, a)] := by
  obtain ⟨s', pre, hs', hb', hlo', _, hts', hpt, hpm, hpc, h1, h2, h3⟩ :=
    scheduler_resume_exec code N hN s hb hlo hts i _ hf ht
  simp only [hcode, runWork_increment] at h1 h2 h3
  refine ⟨s', hs', hb', hlo', hts', by rw [h1, hpt], by rw [h2, hpm]; simp, by rw [h3, hpc]⟩

/-- C10 (scenario, 2 monks and 4 slots): after `initialize_abbey(2, 4)` and
three dispatches (all returning `0`) of a task that adds one to a shared
counter holding `0`, a run with any budget `B ≥ 3` comes to `exit(0)` with the
counter at `3`, the three tasks called once each from slots 0, 1, 2, and all
four slots `TS_FREE`. -/
theorem counter_scenario (code : Nat → Nat → Work (Nat → Int)) (func a : Nat) (m : Nat → Int)
    (B fuel : Nat) (hcode : code func a = increment a) (hm : m a = 0) (hB : 3 ≤ B)
    (hfuel : B < fuel) :
    (dispatch_all [(func, a), (func, a), (func, a)]
      (initialize_abbey 2 4 { globals m with timesScheduled := B }).2).1 = [0, 0, 0] ∧
    ∃ s', start_abbey code fuel
        (dispatch_all [(func, a), (func, a), (func, a)]
          (initialize_abbey 2 4 { globals m with timesScheduled := B }).2).2 = .exit 0 s' ∧
      s'.mem a = 3 ∧
      s'.task = [⟨TS_FREE, func, a⟩, ⟨TS_FREE, func, a⟩, ⟨TS_FREE, func, a⟩, ⟨TS_FREE, 0, 0⟩] ∧
      (∀ t ∈ s'.task, t.state = TS_FREE) ∧
      calls s'.out = [(0, func, a), (1, func, a), (2, func, a)] := by
  have hfill := dispatch_all_fill [(func, a), (func, a), (func, a)] [] 4
    (initialize_abbey 2 4 { globals m with timesScheduled := B }).2
    (by simp [initialize_abbey, TS_FREE]) (by simp)
  refine ⟨by simpa using hfill.1, ?_⟩
  have htask : (dispatch_all [(func, a), (func, a), (func, a)]
      (initialize_abbey 2 4 { globals m with timesScheduled := B }).2).2.task =
      [⟨TS_EXECUTEME, func, a⟩, ⟨TS_EXECUTEME, func, a⟩, ⟨TS_EXECUTEME, func, a⟩,
        ⟨TS_FREE, 0, 0⟩] := by
    simpa using hfill.2
  generalize hs3 : (dispatch_all [(func, a), (func, a), (func, a)]
      (initialize_abbey 2 4 { globals m with timesScheduled := B }).2).2 = s3 at htask ⊢
  have hfr : s3.monkCount = 2 ∧ s3.monk.length = 2 ∧ s3.currentMonk = -1 ∧
      s3.timesScheduled = B ∧ s3.mem = m ∧ calls s3.out = [] := by
    subst hs3
    have f1 := dispatch_task_frame func a
      (initialize_abbey 2 4 { globals m with timesScheduled := B }).2
    have o1 := dispatch_task_out func a
      (initialize_abbey 2 4 { globals m with timesScheduled := B }).2
    have f2 := dispatch_task_frame func a (dispatch_task func a
      (initialize_abbey 2 4 { globals m with timesScheduled := B }).2).2
    have o2 := dispatch_task_out func a (dispatch_task func a
      (initialize_abbey 2 4 { globals m with timesScheduled := B }).2).2
    have f3 := dispatch_task_frame func a (dispatch_task func a (dispatch_task func a
      (initialize_abbey 2 4 { globals m with timesScheduled := B }).2).2).2
    have o3 := dispatch_task_out func a (dispatch_task func a (dispatch_task func a
      (initialize_abbey 2 4 { globals m with timesScheduled := B }).2).2).2
    simp only [dispatch_all]
    rw [f3.1, f3.2.1, f3.2.2.1, f3.2.2.2.1, f3.2.2.2.2.1, o3.2,
      f2.1, f2.2.1, f2.2.2.1, f2.2.2.2.1, f2.2.2.2.2.1, o2.2,
      f1.1, f1.2.1, f1.2.2.1, f1.2.2.2.1, f1.2.2.2.2.1, o1.2]
    simp [initialize_abbey, globals, Abbey.printf, calls]
  obtain ⟨hmc, hlen, hcur, hts, hmem, hcalls⟩ := hfr
  obtain ⟨sb, hrun, hb, htb, hcb, htsb, hmemb, _, hcallsb, _⟩ :=
    start_abbey_boot code 2 fuel s3 hmc hlen
  obtain ⟨n, rfl⟩ : ∃ n, fuel = n + 3 := ⟨fuel - 3, by omega⟩
  -- the three cycles that find a task
  obtain ⟨s1, hs1, hb1, hlo1, hts1, htask1, hmem1, hcalls1⟩ :=
    scheduler_resume_increment code 2 (by decide) sb hb (by omega) (by omega) 0 func a hcode
      (by rw [htb, htask]; simp [firstSlot])
      (by rw [htb, htask]; simp)
  obtain ⟨s2, hs2, hb2, hlo2, hts2, htask2, hmem2, hcalls2⟩ :=
    scheduler_resume_increment code 2 (by decide) s1 hb1 hlo1 (by omega) 1 func a hcode
      (by rw [htask1, htb, htask]; simp [firstSlot, TS_FREE, TS_EXECUTEME])
      (by rw [htask1, htb, htask]; simp)
  obtain ⟨s4, hs4, hb4, hlo4, hts4, htask4, hmem4, hcalls4⟩ :=
    scheduler_resume_increment code 2 (by decide) s2 hb2 hlo2 (by omega) 2 func a hcode
      (by rw [htask2, htask1, htb, htask]; simp [firstSlot, TS_FREE, TS_EXECUTEME])
      (by rw [htask2, htask1, htb, htask]; simp)
  have hfinal : s4.task =
      [⟨TS_FREE, func, a⟩, ⟨TS_FREE, func, a⟩, ⟨TS_FREE, func, a⟩, ⟨TS_FREE, 0, 0⟩] := by
    rw [htask4, htask2, htask1, htb, htask]; simp
  -- the cycles left find nothing
  obtain ⟨s', hs', ht', hm', hc'⟩ := scheduling_idle_exit code 2 (by decide) (B - 3) n s4 hb4 hlo4
    (by rw [hts4, hts2, hts1, htsb, hts]; omega) (by omega)
    (by rw [hfinal]; simp [firstSlot, TS_FREE, TS_EXECUTEME])
  refine ⟨s', ?_, ?_, by rw [ht', hfinal], ?_, ?_⟩
  · rw [hrun, scheduling_succ code (n + 2) sb s1 hs1, scheduling_succ code (n + 1) s1 s2 hs2,
      scheduling_succ code n s2 s4 hs4]
    exact hs'
  · rw [hm', hmem4, hmem2, hmem1, hmemb, hmem, hm]
    rfl
  · rw [ht', hfinal]
    simp
  · rw [hc', hcalls4, hcalls2, hcalls1, hcallsb, hcalls]
    simp

/-- Witness of C10: the demo budget `8`, the counter at address `10`. -/
theorem counter_scenario_witness :
    ∃ s', start_abbey (fun _ a => increment a) 9
        (dispatch_all [(2, 10), (2, 10), (2, 10)]
          (initialize_abbey 2 4 { globals (fun _ => (0 : Int)) with timesScheduled := (8 : Nat) }).2).2 =
        .exit 0 s' ∧ s'.mem 10 = 3 :=
  have h := (counter_scenario (fun _ a => increment a) 2 10 (fun _ => 0) 8 9 rfl rfl
    (by decide) (by decide)).2
  match h with
  | ⟨s', h1, h2, _⟩ => ⟨s', h1, h2⟩

/-! ## The demo program: `inc`, `real_main`, `main` -/

theorem wrap_int_of_range (x : Int) (h1 : -2 ^ 31 ≤ x) (h2 : x < 2 ^ 31) : wrap_int x = x := by
  unfold wrap_int
  rw [Int.emod_eq_of_lt (by omega) (by omega)]
  omega

theorem scheduling_exit_mono (code : Nat → Nat → Work M) : ∀ (k n : Nat) (s s' : Abbey M)
    (status : Int), scheduling code k s = .exit status s' →
    scheduling code (k + n) s = .exit status s' := by
  intro k
  induction k with
  | zero => intro n s s' status h; simp [scheduling] at h
  | succ k ih =>
    intro n s s' status h
    have e : k + 1 + n = (k + n) + 1 := by omega
    rw [e]
    simp only [scheduling] at h ⊢
    cases hr : scheduler_resume code s with
    | exit st s2 => simpa [hr] using h
    | undefined => simp [hr] at h
    | running s2 =>
      simp only [hr] at h ⊢
      exact ih n s2 s' status h

theorem start_abbey_exit_mono (code : Nat → Nat → Work M) (k n : Nat) (s s' : Abbey M)
    (status : Int) (h : start_abbey code k s = .exit status s') :
    start_abbey code (k + n) s = .exit status s' := by
  simp only [start_abbey] at h ⊢
  split at h
  · exact scheduling_exit_mono code k n _ s' status h
  · cases h

/-- C16, as stated, fails: `inc` called on `p_value1`, which holds `16`, leaves
`16` there, not `17`. -/
theorem inc_does_not_store :
    (globals initial_memory).mem p_value1 = some 16 ∧
    (runWork (inc p_value1) (globals initial_memory)).mem p_value1 = some 16 ∧
    (runWork (inc p_value1) (globals initial_memory)).mem p_value1 ≠ some (16 + 1) := by
  decide

/-- C16 (amended): `inc`, called with `context` pointing at an integer holding
`v` (below `INT_MAX`), prints `v + 1` and changes nothing: the integer still
holds `v`, and the rest of the memory and the task table are as before. -/
theorem inc_prints_successor (context : Nat) (s : Abbey (Nat → Option Int)) (v : Int)
    (hv : s.mem context = some v) (hlo : -2 ^ 31 ≤ v) (hhi : v < 2 ^ 31 - 1) :
    (runWork (inc context) s).out =
      s.out ++ [.output ("The value is incremented to " ++ toString (v + 1) ++ ".")] ∧
    (runWork (inc context) s).mem context = some v ∧
    (runWork (inc context) s).mem = s.mem ∧
    (runWork (inc context) s).task = s.task := by
  have hw : wrap_int (v + 1) = v + 1 := wrap_int_of_range (v + 1) (by omega) (by omega)
  simp [inc, runWork, Abbey.printf, hv, hw]

/-- Witness of C16 (amended): `inc` on `value2 = 19`. -/
theorem inc_prints_successor_witness :
    (runWork (inc p_value2) (globals initial_memory)).out =
      [.output ("The value is incremented to " ++ toString ((19 : Int) + 1) ++ ".")] ∧
    (runWork (inc p_value2) (globals initial_memory)).mem p_value2 = some 19 := by
  have h := inc_prints_successor p_value2 (globals initial_memory) 19 rfl (by decide) (by decide)
  exact ⟨by simpa [globals] using h.1, h.2.1⟩

theorem main_mono (k n : Nat) (s' : Abbey (Nat → Option Int)) (status : Int)
    (h : main k = .exit status s') : main (k + n) = .exit status s' := by
  unfold main at h ⊢
  exact start_abbey_exit_mono program k n _ s' status h

theorem main_status : (main 9).status = some 0 := by decide

theorem main_events :
    (main 9).state.map (fun s => withoutOutput s.out) = some main_events_expected := by
  decide

theorem main_resumed :
    (main 9).state.map (fun s => resumed s.out) = some [0, 1, 0, 1, 0, 1, 0, 1] := by
  decide

theorem main_turns : (main 9).state.map (fun s => turns s.out) = some
    [(0, [(0, real_main_addr, 0)]), (1, [(1, inc_addr, p_value1)]),
      (0, [(2, inc_addr, p_value2)]), (1, [(3, inc_addr, p_value3)]),
      (0, []), (1, []), (0, []), (1, [])] := by
  decide

theorem main_task : (main 9).state.map (fun s => s.task) = some
    [⟨TS_FREE, real_main_addr, 0⟩, ⟨TS_FREE, inc_addr, p_value1⟩,
      ⟨TS_FREE, inc_addr, p_value2⟩, ⟨TS_FREE, inc_addr, p_value3⟩] := by
  decide

theorem main_memory : (main 9).state.map (fun s => (s.mem p_value1, s.mem p_value2)) =
    some (some 16, some 19) := by
  decide

/-- C17 (demo trace): the program's `main` (2 monks, 4 slots, `real_main`
dispatched, budget `MAX_COUNT = 8`) comes to `exit(0)` after exactly 8 resumes
`0,1,0,1,0,1,0,1`.  Cycle 1 runs `real_main` from slot 0 on monk 0, and its
three dispatches land in slots 1, 2 and 3 during that call; cycles 2, 3, 4
run slots 1, 2, 3 on monks 1, 0, 1, each after the call of `real_main` is
over; cycles 5 to 8 find nothing; all four slots are free at the end. -/
theorem main_trace (n : Nat) :
    ∃ s', main (n + 9) = .exit 0 s' ∧
      withoutOutput s'.out =
        main_events_expected ∧
      resumed s'.out = [0, 1, 0, 1, 0, 1, 0, 1] ∧
      turns s'.out =
        [(0, [(0, real_main_addr, 0)]), (1, [(1, inc_addr, p_value1)]),
          (0, [(2, inc_addr, p_value2)]), (1, [(3, inc_addr, p_value3)]),
          (0, []), (1, []), (0, []), (1, [])] ∧
      s'.task =
        [⟨TS_FREE, real_main_addr, 0⟩, ⟨TS_FREE, inc_addr, p_value1⟩,
          ⟨TS_FREE, inc_addr, p_value2⟩, ⟨TS_FREE, inc_addr, p_value3⟩] ∧
      s'.mem p_value1 = some 16 ∧ s'.mem p_value2 = some 19 := by
  have hst := main_status
  have h1 := main_events
  have h2 := main_resumed
  have h3 := main_turns
  have h4 := main_task
  have h5 := main_memory
  generalize hm : main 9 = o at hst h1 h2 h3 h4 h5
  cases o with
  | undefined => simp [Outcome.status] at hst
  | running s' => simp [Outcome.status] at hst
  | exit status s' =>
    simp only [Outcome.status, Outcome.state, Option.map_some', Option.some.injEq,
      Prod.mk.injEq] at hst h1 h2 h3 h4 h5
    subst hst
    refine ⟨s', ?_, h1, h2, h3, h4, h5.1, h5.2⟩
    rw [Nat.add_comm]
    exact main_mono 9 n s' 0 hm

/-! ## Turns in the output -/

theorem iterated_append (a b : List Event) : iterated (a ++ b) = iterated a ++ iterated b := by
  induction a with
  | nil => simp [iterated]
  | cons e es ih => cases e <;> simp [iterated, ih]

/-- What a call of `dispatch_task` adds to the output. -/
theorem dispatch_task_out_append (func context : Nat) (s : Abbey M) :
    ∃ evs, (dispatch_task func context s).2.out = s.out ++ evs ∧
      resumed evs = [] ∧ calls evs = [] ∧ iterated evs = [] := by
  rcases dispatch_task_cases func context s with ⟨_, h⟩ | ⟨i, _, h⟩
  · exact ⟨[.taskDispatched], by simp [h, Abbey.printf], rfl, rfl, rfl⟩
  · exact ⟨[.taskDispatched, .taskPut i func context], by simp [h], rfl, rfl, rfl⟩

/-- What a work function adds to the output: no resume, no call, no turn. -/
theorem runWork_out_append (w : Work M) : ∀ s : Abbey M,
    ∃ evs, (runWork w s).out = s.out ++ evs ∧
      resumed evs = [] ∧ calls evs = [] ∧ iterated evs = [] := by
  induction w with
  | ret => intro s; exact ⟨[], by simp [runWork], rfl, rfl, rfl⟩
  | load k ih => intro s; simpa [runWork] using ih s.mem s
  | store m k ih => intro s; simpa [runWork] using ih { s with mem := m }
  | print text k ih =>
    intro s
    obtain ⟨evs, h1, h2, h3, h4⟩ := ih (s.printf (.output text))
    refine ⟨.output text :: evs, ?_, ?_, ?_, ?_⟩
    · simp only [runWork, h1]
      simp [Abbey.printf]
    · simpa [resumed] using h2
    · simpa [calls] using h3
    · simpa [iterated] using h4
  | dispatch func context k ih =>
    intro s
    obtain ⟨e1, g1, g2, g3, g4⟩ := dispatch_task_out_append func context s
    obtain ⟨evs, h1, h2, h3, h4⟩ :=
      ih (dispatch_task func context s).1 (dispatch_task func context s).2
    refine ⟨e1 ++ evs, ?_, ?_, ?_, ?_⟩
    · simp only [runWork, h1, g1, List.append_assoc]
    · simp [resumed_append, g2, h2]
    · simp [calls_append, g3, h3]
    · simp [iterated_append, g4, h4]

/-- What the turn of a resumed monk adds to the output. -/
theorem monking_resume_out_append (code : Nat → Nat → Work M) (r : Int) (hr : r ≠ 0)
    (s : Abbey M) :
    ∃ s' evs, monking_resume code r s = .toScheduler s' ∧ s'.out = s.out ++ evs ∧
      resumed evs = [] ∧ iterated evs = [r - 1] := by
  cases h : firstSlot TS_EXECUTEME s.task with
  | none =>
    refine ⟨_, [.iterateTasks (r - 1), .noTaskFound], monking_resume_idle code r hr s h, ?_,
      rfl, rfl⟩
    simp [Abbey.printf]
  | some i =>
    obtain ⟨t, ht, _⟩ := firstSlot_state _ _ _ h
    obtain ⟨evs, h1, h2, _, h4⟩ := runWork_out_append (code t.func t.context)
      (((s.printf (.iterateTasks (r - 1))).printf (.executeTask i)).printf
        (.call i t.func t.context))
    refine ⟨_, [.iterateTasks (r - 1), .executeTask i, .call i t.func t.context] ++ evs,
      monking_resume_exec code r hr s i t h ht, ?_, ?_, ?_⟩
    · simp only [h1]
      simp [Abbey.printf]
    · simpa [resumed_append, resumed] using h2
    · simpa [iterated_append, iterated] using h4

/-- What a cycle in a booted state adds to the output: the resume of the next
monk, and then that monk's turn under the same id. -/
theorem scheduler_resume_out (code : Nat → Nat → Work M) (N : Nat) (hN : 1 ≤ N)
    (s : Abbey M) (hb : Booted N s) (hlo : -1 ≤ s.currentMonk) (hts : s.timesScheduled ≠ 0) :
    ∃ s' evs, scheduler_resume code s = .running s' ∧
      s'.out = s.out ++ .jumpToMonk ((s.currentMonk + 1) % N) :: evs ∧
      resumed evs = [] ∧ iterated evs = [(s.currentMonk + 1) % N] := by
  obtain ⟨s', hs', hm'⟩ := scheduler_resume_running code N hN s hb hlo hts
  have hNpos : (0 : Int) < N := by exact_mod_cast hN
  have h0 : 0 ≤ (s.currentMonk + 1) % (N : Int) := Int.emod_nonneg _ (by omega)
  obtain ⟨s'', evs, h1, h2, h3, h4⟩ :=
    monking_resume_out_append code ((s.currentMonk + 1) % (N : Int) + 1) (by omega)
      ({ s with timesScheduled := s.timesScheduled - 1
                currentMonk := (s.currentMonk + 1) % N }.printf
        (.jumpToMonk ((s.currentMonk + 1) % N)))
  rw [hm'] at h1
  cases h1
  refine ⟨s', evs, hs', ?_, h3, by simpa using h4⟩
  rw [h2]
  simp [Abbey.printf]

/-! ## Draining the table -/

theorem dispatch_all_frame : ∀ (ds : List (Nat × Nat)) (s : Abbey M),
    (dispatch_all ds s).2.monk = s.monk ∧
    (dispatch_all ds s).2.monkCount = s.monkCount ∧
    (dispatch_all ds s).2.currentMonk = s.currentMonk ∧
    (dispatch_all ds s).2.timesScheduled = s.timesScheduled ∧
    (dispatch_all ds s).2.mem = s.mem ∧
    resumed (dispatch_all ds s).2.out = resumed s.out ∧
    calls (dispatch_all ds s).2.out = calls s.out
  | [], s => by simp [dispatch_all]
  | d :: ds, s => by
    have ih := dispatch_all_frame ds (dispatch_task d.1 d.2 s).2
    have hf := dispatch_task_frame d.1 d.2 s
    have ho := dispatch_task_out d.1 d.2 s
    simp only [dispatch_all]
    exact ⟨ih.1.trans hf.1, ih.2.1.trans hf.2.1, ih.2.2.1.trans hf.2.2.1,
      ih.2.2.2.1.trans hf.2.2.2.1, ih.2.2.2.2.1.trans hf.2.2.2.2.1,
      ih.2.2.2.2.2.1.trans ho.1, ih.2.2.2.2.2.2.trans ho.2⟩

/-- C11 (scenario, 1 monk and 2 slots): after `initialize_abbey(1, 2)` two
dispatches return `0` and fill both slots and a third returns `1`; one
scheduling cycle then calls the task of slot 0 (which does not dispatch) and
frees the slot, and a further dispatch returns `0` and lands in slot 0. -/
theorem full_then_free_scenario (code : Nat → Nat → Work M) (m : M) (t1 t2 t3 t4 : Nat × Nat)
    (hnd : (code t1.1 t1.2).noDispatch) :
    (dispatch_all [t1, t2, t3] (initialize_abbey 1 2 (globals m)).2).1 = [0, 0, 1] ∧
    (dispatch_all [t1, t2, t3] (initialize_abbey 1 2 (globals m)).2).2.task =
      [⟨TS_EXECUTEME, t1.1, t1.2⟩, ⟨TS_EXECUTEME, t2.1, t2.2⟩] ∧
    ∃ s1, start_abbey code 1
        (dispatch_all [t1, t2, t3] (initialize_abbey 1 2 (globals m)).2).2 = .running s1 ∧
      resumed s1.out = [0] ∧ calls s1.out = [(0, t1.1, t1.2)] ∧
      s1.task = [⟨TS_FREE, t1.1, t1.2⟩, ⟨TS_EXECUTEME, t2.1, t2.2⟩] ∧
      (dispatch_task t4.1 t4.2 s1).1 = 0 ∧
      (dispatch_task t4.1 t4.2 s1).2.task =
        [⟨TS_EXECUTEME, t4.1, t4.2⟩, ⟨TS_EXECUTEME, t2.1, t2.2⟩] := by
  have hfill := dispatch_all_fill [t1, t2, t3] [] 2 (initialize_abbey 1 2 (globals m)).2
    (by simp [initialize_abbey, TS_FREE]) (by simp)
  have hfr := dispatch_all_frame [t1, t2, t3] (initialize_abbey 1 2 (globals m)).2
  have htask : (dispatch_all [t1, t2, t3] (initialize_abbey 1 2 (globals m)).2).2.task =
      [⟨TS_EXECUTEME, t1.1, t1.2⟩, ⟨TS_EXECUTEME, t2.1, t2.2⟩] := by
    simpa using hfill.2
  refine ⟨by simpa using hfill.1, htask, ?_⟩
  generalize (dispatch_all [t1, t2, t3] (initialize_abbey 1 2 (globals m)).2).2 = s3
    at htask hfr
  obtain ⟨hmonk, hmc, hcur, hts, _, hres, hcalls⟩ := hfr
  simp only [initialize_abbey, globals, Abbey.printf, resumed, calls, List.nil_append,
    MAX_COUNT] at hmonk hmc hcur hts hres hcalls
  obtain ⟨sb, hrun, hb, htb, hcb, htsb, _, hresb, hcallsb, _⟩ :=
    start_abbey_boot code 1 1 s3 (by rw [hmc]; rfl) (by rw [hmonk]; rfl)
  obtain ⟨s1, pre, hs1, _, _, _, _, hpt, _, hpc, htask1, _, hout1⟩ :=
    scheduler_resume_exec code 1 (by decide) sb hb (by omega) (by omega) 0
      ⟨TS_EXECUTEME, t1.1, t1.2⟩
      (by rw [htb, htask]; simp [firstSlot])
      (by rw [htb, htask]; simp)
  obtain ⟨s1', hs1', _, _, _, _, hres1⟩ :=
    scheduler_resume_step code 1 (by decide) sb hb (by omega) (by omega)
  rw [hs1] at hs1'
  cases hs1'
  have hsame := runWork_noDispatch (code t1.1 t1.2) pre hnd
  have ht1 : s1.task = [⟨TS_FREE, t1.1, t1.2⟩, ⟨TS_EXECUTEME, t2.1, t2.2⟩] := by
    rw [htask1]
    simp only [hsame, hpt, htb, htask]
    simp
  have hfree : firstSlot TS_FREE s1.task = some 0 := by
    rw [ht1]
    simp [firstSlot]
  refine ⟨s1, ?_, ?_, ?_, ht1, ?_, ?_⟩
  · rw [hrun, scheduling_succ code 0 sb s1 hs1]
    rfl
  · rw [hres1, hresb, hres, hcb, hcur]
    simp
  · rw [hout1, (runWork_out (code t1.1 t1.2) pre).2]
    simp only at hpc
    rw [hpc, hcallsb, hcalls]
    simp
  · rw [dispatch_task_ok t4.1 t4.2 s1 0 hfree]
  · rw [dispatch_task_ok t4.1 t4.2 s1 0 hfree]
    simp [ht1]

/-- Witness of C11: four tasks that return at once. -/
theorem full_then_free_scenario_witness :
    (dispatch_all [(5, 0), (6, 0), (7, 0)] (initialize_abbey 1 2 (globals ())).2).1 = [0, 0, 1] ∧
    ∃ s1, start_abbey (fun _ _ => Work.ret) 1
        (dispatch_all [(5, 0), (6, 0), (7, 0)] (initialize_abbey 1 2 (globals ())).2).2 =
        .running s1 ∧
      (dispatch_task 8 0 s1).1 = 0 ∧
      (dispatch_task 8 0 s1).2.task = [⟨1, 8, 0⟩, ⟨1, 6, 0⟩] := by
  obtain ⟨h1, _, s1, h3, _, _, _, h7, h8⟩ :=
    full_then_free_scenario (fun _ _ => Work.ret) () (5, 0) (6, 0) (7, 0) (8, 0) trivial
  exact ⟨h1, s1, h3, h7, h8⟩

/-- The state in which the boot phase ends is the one every run starts its
cycles in. -/
theorem start_abbey_fuel (code : Nat → Nat → Work M) (s sb : Abbey M)
    (h : start_abbey code 0 s = .running sb) (fuel : Nat) :
    start_abbey code fuel s = scheduling code fuel sb := by
  simp only [start_abbey] at h ⊢
  split at h
  · simp only [scheduling] at h
    cases h
    rfl
  · cases h

/-- C14 (booting does no work): for `N` monks and any task table, the boot phase
of `start_abbey` (up to the first scheduling cycle) prints its lines, one
"Initialize monk" for each monk in order, and captures the environments; it
calls no work function, resumes no monk and leaves the task table, the cursor
(still `-1`), the budget and the memory as they were.  The first cycle after
it resumes monk 0. -/
theorem boot_does_no_work (code : Nat → Nat → Work M) (N : Nat) (s : Abbey M)
    (hmc : s.monkCount = N) (hlen : s.monk.length = N) (hcur : s.currentMonk = -1) :
    ∃ s', start_abbey code 0 s = .running s' ∧
      s'.out = s.out ++ [.abbeyStarted, .jumpToScheduler, .initScheduler, .initMonks] ++
        (List.range N).map (fun (j : Nat) => Event.initMonk (j : Int)) ++ [.startScheduling] ∧
      calls s'.out = calls s.out ∧ resumed s'.out = resumed s.out ∧
      s'.task = s.task ∧ s'.currentMonk = -1 ∧ s'.timesScheduled = s.timesScheduled ∧
      s'.mem = s.mem ∧ Booted N s' ∧
      (1 ≤ N → s.timesScheduled ≠ 0 →
        ∃ s1, start_abbey code 1 s = .running s1 ∧ scheduler_resume code s' = .running s1 ∧
          resumed s1.out = resumed s.out ++ [0] ∧ s1.currentMonk = 0) := by
  obtain ⟨sb, hrun, hb, htb, hcb, htsb, hmemb, hresb, hcallsb, _, houtb⟩ :=
    start_abbey_boot code N 0 s hmc hlen
  refine ⟨sb, by rw [hrun]; rfl, houtb, hcallsb, hresb, htb, by rw [hcb, hcur], htsb, hmemb, hb,
    ?_⟩
  intro hN hts
  have hrun1 := start_abbey_fuel code s sb (by rw [hrun]; rfl) 1
  obtain ⟨s1, hs1, _, hc1, _, _, hres1⟩ :=
    scheduler_resume_step code N hN sb hb (by omega) (by omega)
  refine ⟨s1, ?_, hs1, ?_, ?_⟩
  · rw [hrun1, scheduling_succ code 0 sb s1 hs1]
    rfl
  · rw [hres1, hresb, hcb, hcur]
    simp
  · rw [hc1, hcb, hcur]
    simp

/-- Witness of C14: the boot of the demo's two monks. -/
theorem boot_does_no_work_witness :
    ∃ s', start_abbey (fun _ _ => Work.ret) 0
        (dispatch_task 5 0 (initialize_abbey 2 4 (globals ())).2).2 = .running s' ∧
      calls s'.out = [] ∧ s'.currentMonk = -1 ∧ s'.timesScheduled = 8 ∧
      s'.task = [⟨1, 5, 0⟩, ⟨0, 0, 0⟩, ⟨0, 0, 0⟩, ⟨0, 0, 0⟩] := by
  obtain ⟨s', h1, _, h3, _, h5, h6, h7, _⟩ := boot_does_no_work (fun _ _ => Work.ret) 2
    (dispatch_task 5 0 (initialize_abbey 2 4 (globals ())).2).2 rfl rfl rfl
  exact ⟨s', h1, h3, h6, h7, h5⟩

/-- The cursor and the ids the monks recover over `k` cycles with budget for
them. -/
theorem scheduling_cursor (code : Nat → Nat → Work M) (N : Nat) (hN : 1 ≤ N) :
    ∀ (k : Nat) (s : Abbey M), Booted N s → -1 ≤ s.currentMonk → (k : Int) ≤ s.timesScheduled →
    ∃ s', scheduling code k s = .running s' ∧ Booted N s' ∧
      (k = 0 → s'.currentMonk = s.currentMonk) ∧
      (0 < k → s'.currentMonk = (s.currentMonk + (k : Int)) % (N : Int)) ∧
      iterated s'.out = iterated s.out ++
        (List.range k).map (fun (j : Nat) => (s.currentMonk + 1 + (j : Int)) % (N : Int)) := by
  intro k
  induction k with
  | zero =>
    intro s hb _ _
    exact ⟨s, rfl, hb, fun _ => rfl, fun h => absurd h (by decide), by simp⟩
  | succ k ih =>
    intro s hb hlo hk
    have hts : s.timesScheduled ≠ 0 := by omega
    obtain ⟨s1, hs1, hb1, hcur1, hbud1, _, _⟩ := scheduler_resume_step code N hN s hb hlo hts
    obtain ⟨s1', evs, hs1', hout1, _, hit1⟩ := scheduler_resume_out code N hN s hb hlo hts
    rw [hs1] at hs1'
    cases hs1'
    have hNpos : (0 : Int) < N := by exact_mod_cast hN
    have h0 : 0 ≤ (s.currentMonk + 1) % (N : Int) := Int.emod_nonneg _ (by omega)
    obtain ⟨s', hs', hb', hz', hp', hit'⟩ := ih s1 hb1 (by omega) (by omega)
    refine ⟨s', ?_, hb', fun h => absurd h (by omega), ?_, ?_⟩
    · simp only [scheduling, hs1]
      exact hs'
    · intro _
      rcases Nat.eq_zero_or_pos k with hk0 | hk0
      · rw [hz' hk0, hcur1, hk0]
        simp
      · rw [hp' hk0, hcur1, Int.emod_add_emod]
        congr 1
        push_cast
        ring
    · rw [hit', hout1, iterated_append, hcur1, List.range_succ_eq_map]
      simp only [iterated, hit1, List.map_cons, List.map_map, List.append_assoc,
        List.singleton_append]
      congr 1
      congr 1
      · simp
      · apply List.map_congr_left
        intro j _
        simp only [Function.comp, Nat.succ_eq_add_one]
        rw [Int.add_assoc, Int.emod_add_emod]
        congr 1
        push_cast
        ring

/-- C19 (cursor safety): with `N ≥ 1` monks the modulus `monkCount` is not zero;
the run is defined through any `k` cycles the budget allows (no `% 0`, no
index of `monk` out of bounds); the cursor is `-1` before the first cycle and
`(k - 1) mod N`, in `[0, N)`, after the `k`-th; the value passed to `longjmp`
for monk `c` is `c + 1`, never `0`, and `setjmp` returns just that, so the id
each resumed monk recovers (value minus one) is the cursor. -/
theorem cursor_safety (code : Nat → Nat → Work M) (N k : Nat) (s : Abbey M)
    (hN : 1 ≤ N) (hmc : s.monkCount = N) (hlen : s.monk.length = N)
    (hcur : s.currentMonk = -1) (hbud : (k : Int) ≤ s.timesScheduled) :
    s.monkCount ≠ 0 ∧
    ∃ s', start_abbey code k s = .running s' ∧
      s'.monkCount = N ∧ s'.monk.length = N ∧
      (k = 0 → s'.currentMonk = -1) ∧
      (0 < k → s'.currentMonk = ((k : Int) - 1) % (N : Int) ∧
        0 ≤ s'.currentMonk ∧ s'.currentMonk < N ∧ s'.currentMonk.toNat < s'.monk.length) ∧
      resumed s'.out =
        resumed s.out ++ (List.range k).map (fun (j : Nat) => ((j % N : Nat) : Int)) ∧
      iterated s'.out =
        iterated s.out ++ (List.range k).map (fun (j : Nat) => ((j % N : Nat) : Int)) ∧
      ∀ c : Int, 0 ≤ c → c + 1 ≠ 0 ∧ longjmp_val (c + 1) = c + 1 ∧
        longjmp_val (c + 1) - 1 = c := by
  have hNpos : (0 : Int) < N := by exact_mod_cast hN
  refine ⟨by omega, ?_⟩
  obtain ⟨sb, hrun, hb, _, hcb, htsb, _, hresb, _, _, houtb⟩ :=
    start_abbey_boot code N k s hmc hlen
  obtain ⟨s', hs', _, _, _, _, hres⟩ :=
    scheduling_running code N hN k sb hb (by omega) (by omega)
  obtain ⟨s'', hs'', hb', hz, hp, hit⟩ :=
    scheduling_cursor code N hN k sb hb (by omega) (by omega)
  rw [hs'] at hs''
  cases hs''
  have hitb : iterated sb.out = iterated s.out := by
    rw [houtb]
    simp only [iterated_append, iterated, List.append_nil]
    have : ∀ l : List Nat, iterated (l.map (fun (j : Nat) => Event.initMonk (j : Int))) = [] := by
      intro l
      induction l with
      | nil => rfl
      | cons a l ih => simpa [iterated] using ih
    rw [this]
    simp
  refine ⟨s', hrun.trans hs', hb'.1, hb'.2.1, ?_, ?_, ?_, ?_, ?_⟩
  · intro h0
    rw [hz h0, hcb, hcur]
  · intro hk
    have e : s'.currentMonk = ((k : Int) - 1) % (N : Int) := by
      rw [hp hk, hcb, hcur]
      congr 1
    have h1 : 0 ≤ ((k : Int) - 1) % (N : Int) := Int.emod_nonneg _ (by omega)
    have h2 : ((k : Int) - 1) % (N : Int) < N := Int.emod_lt_of_pos _ hNpos
    refine ⟨e, by rw [e]; exact h1, by rw [e]; exact h2, ?_⟩
    rw [hb'.2.1, e]
    omega
  · rw [hres, hresb, hcb, hcur]
    congr 1
    apply List.map_congr_left
    intro j _
    simp
  · rw [hit, hitb, hcb, hcur]
    congr 1
    apply List.map_congr_left
    intro j _
    simp
  · intro c hc
    have hne : c + 1 ≠ 0 := by omega
    simp [longjmp_val, hne]

/-- Witness of C19: three monks, four cycles of the demo budget. -/
theorem cursor_safety_witness :
    ∃ s', start_abbey (fun _ _ => Work.ret) 4 (initialize_abbey 3 2 (globals ())).2 =
        .running s' ∧
      s'.currentMonk = 0 ∧ iterated s'.out = [0, 1, 2, 0] := by
  obtain ⟨_, s', h1, _, _, _, h5, _, h7, _⟩ := cursor_safety (fun _ _ => Work.ret) 3 4
    (initialize_abbey 3 2 (globals ())).2 (by decide) rfl rfl rfl (by decide)
  refine ⟨s', h1, ?_, ?_⟩
  · rw [(h5 (by decide)).1]
    decide
  · rw [h7]
    decide

/-! ## Execution order -/

/-- C20 (execution order is by slot, not by dispatch order): one monk, two slots;
`A = 10` and `B = 11` are dispatched into slots 0 and 1; the first cycle calls
`A` and frees slot 0; `C = 12`, dispatched next, lands in slot 0; the second
cycle calls `C` while `B`, dispatched before it, still waits in slot 1, and
the third cycle calls `B`: the dispatch order is `A, B, C`, the call order
`A, C, B`. -/
theorem slot_order_not_dispatch_order :
    (dispatch_all [(10, 0), (11, 0)] (initialize_abbey 1 2 (globals ())).2).1 = [0, 0] ∧
    slot_order_run.1.map (fun s1 => (calls s1.out, waiting s1.task)) =
      some ([(0, 10, 0)], [(1, 11, 0)]) ∧
    slot_order_run.1.map (fun s1 => (dispatch_task 12 0 s1).1) = some 0 ∧
    slot_order_run.2.1.map (fun s2 => puts s2.out) =
      some [(0, 10, 0), (1, 11, 0), (0, 12, 0)] ∧
    slot_order_run.2.1.map (fun s2 => (calls s2.out, waiting s2.task)) =
      some ([(0, 10, 0), (0, 12, 0)], [(1, 11, 0)]) ∧
    slot_order_run.2.2.map (fun s3 => (calls s3.out, waiting s3.task)) =
      some ([(0, 10, 0), (0, 12, 0), (1, 11, 0)], []) := by
  refine ⟨by decide, by decide, by decide, by decide, by decide, by decide⟩

/-! ## Dispatching from inside a task -/

/-- While a work function runs, a slot that is not free keeps what it holds at
every call of `dispatch_task` the work function makes. -/
theorem dispatchPoints_keeps (w : Work M) : ∀ (s : Abbey M) (i : Nat) (t : Task),
    s.task[i]? = some t → t.state ≠ TS_FREE →
    ∀ p ∈ dispatchPoints w s, p.2.2.task[i]? = some t ∧ p.2.2.task.length = s.task.length := by
  induction w with
  | ret => intro s i t _ _ p hp; simp [dispatchPoints] at hp
  | load k ih => intro s i t hi ht p hp; exact ih s.mem s i t hi ht p (by simpa [dispatchPoints] using hp)
  | store m k ih =>
    intro s i t hi ht p hp
    exact ih { s with mem := m } i t hi ht p (by simpa [dispatchPoints] using hp)
  | print text k ih =>
    intro s i t hi ht p hp
    have := ih (s.printf (.output text)) i t (by simpa [Abbey.printf] using hi) ht p
      (by simpa [dispatchPoints] using hp)
    simpa [Abbey.printf] using this
  | dispatch func context k ih =>
    intro s i t hi ht p hp
    simp only [dispatchPoints, List.mem_cons] at hp
    rcases hp with rfl | hp
    · exact ⟨hi, rfl⟩
    · have := ih _ _ i t (dispatch_task_keeps func context s i t hi ht) ht p hp
      exact ⟨this.1, this.2.trans (dispatch_task_frame func context s).2.2.2.2.2⟩

/-- C15 (dispatch from inside a running task): in a turn that runs the work of
slot `i`, at every call of `dispatch_task` made by that work slot `i` is still
`TS_EXECUTEME` with its function and argument; the call returns `1` and leaves
the table alone, or returns `0` and writes a slot other than `i`; either way
slot `i` is as before, and with a table of one slot the call returns `1`.
Slot `i` is still `TS_EXECUTEME` when the work returns and `TS_FREE` only
after. -/
theorem dispatch_inside_task (code : Nat → Nat → Work M) (r : Int) (s : Abbey M)
    (hr : r ≠ 0) (h : ∃ t ∈ s.task, t.state = TS_EXECUTEME) :
    ∃ (i : Nat) (t : Task) (s' : Abbey M),
      s.task[i]? = some t ∧ t.state = TS_EXECUTEME ∧
      (∀ j u, j < i → s.task[j]? = some u → u.state ≠ TS_EXECUTEME) ∧
      monking_resume code r s = .toScheduler s' ∧
      (∀ p ∈ dispatchPoints (code t.func t.context)
          (((s.printf (.iterateTasks (r - 1))).printf (.executeTask i)).printf
            (.call i t.func t.context)),
        p.2.2.task[i]? = some t ∧
        (dispatch_task p.1 p.2.1 p.2.2).2.task[i]? = some t ∧
        (((dispatch_task p.1 p.2.1 p.2.2).1 = 1 ∧
            (dispatch_task p.1 p.2.1 p.2.2).2.task = p.2.2.task) ∨
          ∃ j, j ≠ i ∧ (dispatch_task p.1 p.2.1 p.2.2).1 = 0 ∧
            (dispatch_task p.1 p.2.1 p.2.2).2.task =
              p.2.2.task.set j ⟨TS_EXECUTEME, p.1, p.2.1⟩) ∧
        (s.task.length = 1 → (dispatch_task p.1 p.2.1 p.2.2).1 = 1)) ∧
      (runWork (code t.func t.context)
        (((s.printf (.iterateTasks (r - 1))).printf (.executeTask i)).printf
          (.call i t.func t.context))).task[i]? = some t ∧
      s'.task[i]? = some { t with state := TS_FREE } := by
  obtain ⟨i, hi⟩ := firstSlot_isSome TS_EXECUTEME s.task h
  obtain ⟨t, ht, hst⟩ := firstSlot_state TS_EXECUTEME s.task i hi
  have hlt := firstSlot_lt TS_EXECUTEME s.task i hi
  have hne : t.state ≠ TS_FREE := by rw [hst]; decide
  have hpre : (((s.printf (.iterateTasks (r - 1))).printf (.executeTask i)).printf
      (.call i t.func t.context)).task[i]? = some t := by simpa [Abbey.printf] using ht
  have hk := runWork_keeps (code t.func t.context) _ i t hpre hne
  have hf := runWork_frame (code t.func t.context)
    (((s.printf (.iterateTasks (r - 1))).printf (.executeTask i)).printf
      (.call i t.func t.context))
  refine ⟨i, t, _, ht, hst, fun j u hj hu => firstSlot_before _ _ i hi j hj u hu,
    monking_resume_exec code r hr s i t hi ht, ?_, hk, ?_⟩
  · intro p hp
    obtain ⟨hpi, hpl⟩ := dispatchPoints_keeps (code t.func t.context) _ i t hpre hne p hp
    refine ⟨hpi, dispatch_task_keeps p.1 p.2.1 p.2.2 i t hpi hne, ?_, ?_⟩
    · rcases dispatch_task_cases p.1 p.2.1 p.2.2 with ⟨_, e⟩ | ⟨j, hj, e⟩
      · left
        rw [e]
        exact ⟨rfl, rfl⟩
      · right
        obtain ⟨u, hu, hus⟩ := firstSlot_state TS_FREE p.2.2.task j hj
        refine ⟨j, ?_, by rw [e], by rw [e]⟩
        rintro rfl
        rw [hpi] at hu
        cases hu
        exact hne hus
    · intro hone
      have hlen1 : p.2.2.task.length = 1 := by
        rw [hpl]
        simpa [Abbey.printf] using hone
      have hnone : firstSlot TS_FREE p.2.2.task = none := by
        rw [firstSlot_none]
        intro u hu
        obtain ⟨k, hk1, hk2⟩ := List.getElem_of_mem hu
        have hk0 : k = 0 := by omega
        have hi0 : i = 0 := by omega
        subst hk0
        subst hi0
        rw [List.getElem?_eq_getElem hk1] at hpi
        cases hpi
        rw [← hk2]
        exact hne
      rw [dispatch_task_full p.1 p.2.1 p.2.2 hnone]
  · have hl : i < (runWork (code t.func t.context)
        (((s.printf (.iterateTasks (r - 1))).printf (.executeTask i)).printf
          (.call i t.func t.context))).task.length := by
      rw [hf.2.2.2.2]; simpa [Abbey.printf] using hlt
    simp [List.getElem?_set_self, hl]

/-- Witness of C15: a table of one slot whose task dispatches once. -/
theorem dispatch_inside_task_witness :
    dispatchPoints (Work.dispatch 9 9 fun _ => Work.ret)
        ((({ globals () with task := [⟨1, 7, 3⟩] }.printf (.iterateTasks 0)).printf
          (.executeTask 0)).printf (.call 0 7 3)) ≠ [] ∧
    ∃ (s' : Abbey Unit),
      monking_resume (fun _ _ => Work.dispatch 9 9 fun _ => Work.ret) 1
        { globals () with task := [⟨1, 7, 3⟩] } = .toScheduler s' ∧
      s'.task = [⟨0, 7, 3⟩] := by
  obtain ⟨i, t, s', h1, _, _, h4, _, _, h7⟩ :=
    dispatch_inside_task (fun _ _ => Work.dispatch 9 9 fun _ => Work.ret) 1
      { globals () with task := [⟨1, 7, 3⟩] } (by decide) ⟨⟨1, 7, 3⟩, by decide, rfl⟩
  refine ⟨by simp [dispatchPoints], s', h4, ?_⟩
  have e : monking_resume (fun _ _ => Work.dispatch 9 9 fun _ => Work.ret) 1
      { globals () with task := [⟨1, 7, 3⟩] } =
      .toScheduler { globals () with
        task := [⟨0, 7, 3⟩]
        out := [.iterateTasks 0, .executeTask 0, .call 0 7 3, .taskDispatched] } := by
    simp [monking_resume, globals, firstSlot, TS_EXECUTEME, TS_FREE, Abbey.printf, runWork,
      dispatch_task]
  rw [e] at h4
  cases h4
  rfl

/-! ## What the slots hold -/

theorem lastPut_congr (i : Nat) (out out' : List Event) (h : puts out' = puts out) :
    lastPut i out' = lastPut i out := by
  simp only [lastPut, h]

theorem lastPut_snoc_same (k func context : Nat) (out out' : List Event)
    (h : puts out' = puts out ++ [(k, func, context)]) :
    lastPut k out' = some (func, context) := by
  simp [lastPut, h, List.filter_append]

theorem lastPut_snoc_other (i k func context : Nat) (out out' : List Event)
    (h : puts out' = puts out ++ [(k, func, context)]) (hik : k ≠ i) :
    lastPut i out' = lastPut i out := by
  simp [lastPut, h, List.filter_append, hik]

theorem dispatch_task_holds (func context : Nat) (s : Abbey M)
    (h : HoldsLastPut s.task s.out) :
    HoldsLastPut (dispatch_task func context s).2.task (dispatch_task func context s).2.out := by
  rcases dispatch_task_cases func context s with ⟨_, e⟩ | ⟨k, hk, e⟩
  · intro i t hi ht
    rw [e] at hi ⊢
    rw [lastPut_congr i s.out _ (by simp [Abbey.printf, puts_append, puts])]
    exact h i t (by simpa [Abbey.printf] using hi) ht
  · have hlt := firstSlot_lt TS_FREE s.task k hk
    have hp : puts (s.out ++ [Event.taskDispatched, Event.taskPut k func context]) =
        puts s.out ++ [(k, func, context)] := by simp [puts_append, puts]
    intro i t hi ht
    rw [e] at hi ⊢
    simp only at hi ⊢
    by_cases hik : k = i
    · subst hik
      rw [List.getElem?_set_self hlt] at hi
      cases hi
      exact lastPut_snoc_same k func context s.out _ hp
    · rw [List.getElem?_set_ne hik] at hi
      rw [lastPut_snoc_other i k func context s.out _ hp hik]
      exact h i t hi ht

theorem runWork_holds (w : Work M) : ∀ s : Abbey M, HoldsLastPut s.task s.out →
    HoldsLastPut (runWork w s).task (runWork w s).out := by
  induction w with
  | ret => intro s h; simpa [runWork] using h
  | load k ih => intro s h; simpa [runWork] using ih s.mem s h
  | store m k ih => intro s h; simpa [runWork] using ih { s with mem := m } h
  | print text k ih =>
    intro s h
    simp only [runWork]
    apply ih
    intro i t hi ht
    rw [lastPut_congr i s.out _ (by simp [Abbey.printf, puts_append, puts])]
    exact h i t (by simpa [Abbey.printf] using hi) ht
  | dispatch func context k ih =>
    intro s h
    simp only [runWork]
    exact ih _ _ (dispatch_task_holds func context s h)

theorem monking_resume_holds (code : Nat → Nat → Work M) (r : Int) (s s' : Abbey M)
    (hs : monking_resume code r s = .toScheduler s') (h : HoldsLastPut s.task s.out) :
    HoldsLastPut s'.task s'.out := by
  by_cases hr : r = 0
  · subst hr
    simp [monking_resume] at hs
  · cases hf : firstSlot TS_EXECUTEME s.task with
    | none =>
      rw [monking_resume_idle code r hr s hf] at hs
      cases hs
      intro i t hi ht
      rw [lastPut_congr i s.out _ (by simp [Abbey.printf, puts_append, puts])]
      exact h i t (by simpa [Abbey.printf] using hi) ht
    | some k =>
      obtain ⟨u, hu, _⟩ := firstSlot_state _ _ _ hf
      rw [monking_resume_exec code r hr s k u hf hu] at hs
      cases hs
      have hpre : HoldsLastPut
          (((s.printf (.iterateTasks (r - 1))).printf (.executeTask k)).printf
            (.call k u.func u.context)).task
          (((s.printf (.iterateTasks (r - 1))).printf (.executeTask k)).printf
            (.call k u.func u.context)).out := by
        intro i t hi ht
        rw [lastPut_congr i s.out _ (by simp [Abbey.printf, puts_append, puts])]
        exact h i t (by simpa [Abbey.printf] using hi) ht
      have hrun := runWork_holds (code u.func u.context) _ hpre
      intro i t hi ht
      simp only at hi ⊢
      by_cases hik : k = i
      · subst hik
        have hmem := List.getElem?_mem hi
        rcases List.mem_or_eq_of_mem_set hmem with h1 | h1
        · by_cases hlt : k < (runWork (code u.func u.context)
              (((s.printf (.iterateTasks (r - 1))).printf (.executeTask k)).printf
                (.call k u.func u.context))).task.length
          · rw [List.getElem?_set_self hlt] at hi
            cases hi
            simp [TS_FREE, TS_EXECUTEME] at ht
          · rw [List.getElem?_eq_none (by simpa using hlt)] at hi
            cases hi
        · rw [h1] at ht
          simp [TS_FREE, TS_EXECUTEME] at ht
      · rw [List.getElem?_set_ne hik] at hi
        exact hrun i t hi ht

theorem Reachable_holds (code : Nat → Nat → Work M) (nofMonks nofTasks : Int) (s : Abbey M)
    (h : Reachable code nofMonks nofTasks s) : HoldsLastPut s.task s.out := by
  induction h with
  | init g _ =>
    intro i t hi ht
    have hmem := List.getElem?_mem hi
    simp [initialize_abbey] at hmem
    rw [hmem.2] at ht
    simp [TS_EXECUTEME] at ht
  | dispatch func context s _ ih => exact dispatch_task_holds func context s ih
  | turn r s s' _ hs ih => exact monking_resume_holds code r s s' hs ih
  | boot s s' _ hs ih =>
    obtain ⟨h1, h2, _⟩ := start_abbey_boot_inv code s s' hs
    intro i t hi ht
    rw [lastPut_congr i s.out _ h2]
    exact ih i t (by rw [← h1]; exact hi) ht
  | cycle s s' _ hs ih =>
    obtain ⟨r, s1, hm, h1, h2, _⟩ := scheduler_resume_running_inv code s s' hs
    apply monking_resume_holds code r s1 s' hm
    intro i t hi ht
    rw [lastPut_congr i s.out _ h2]
    exact ih i t (by rw [← h1]; exact hi) ht
  | quit status s s' _ hs ih =>
    obtain ⟨h1, h2, _⟩ := scheduler_resume_exit_inv code status s s' hs
    intro i t hi ht
    rw [lastPut_congr i s.out _ h2]
    exact ih i t (by rw [← h1]; exact hi) ht

/-- C18 (two-state invariant): in every state reached from `initialize_abbey` by
dispatches, turns, booting and cycles, and also while a work function is
running from such a state, every slot is `TS_FREE` or `TS_EXECUTEME`, none is
`TS_EXECUTING`; and every waiting slot holds the function and the argument of
the last successful dispatch into it. -/
theorem two_state_invariant (code : Nat → Nat → Work M) (N C : Int) (s : Abbey M)
    (h : Reachable code N C s) :
    TwoState s.task ∧
    (∀ t ∈ s.task, t.state ≠ TS_EXECUTING) ∧
    (∀ w : Work M, TwoState (runWork w s).task ∧
      ∀ t ∈ (runWork w s).task, t.state ≠ TS_EXECUTING) ∧
    ∀ (i : Nat) (t : Task), s.task[i]? = some t → t.state = TS_EXECUTEME →
      lastPut i s.out = some (t.func, t.context) := by
  have h2 := (Reachable_table code N C s h).2
  have hno : ∀ l : List Task, TwoState l → ∀ t ∈ l, t.state ≠ TS_EXECUTING := by
    intro l hl t ht
    rcases hl t ht with h0 | h0 <;> rw [h0] <;> decide
  exact ⟨h2, hno _ h2, fun w => ⟨runWork_twoState w s h2, hno _ (runWork_twoState w s h2)⟩,
    Reachable_holds code N C s h⟩

/-- Witness of C18: after two dispatches slot 1 holds the second. -/
theorem two_state_invariant_witness :
    lastPut 1 (dispatch_all [(5, 0), (6, 1)] (initialize_abbey 1 2 (globals ())).2).2.out =
      some (6, 1) :=
  (two_state_invariant (fun _ _ => Work.ret) 1 2
    (dispatch_all [(5, 0), (6, 1)] (initialize_abbey 1 2 (globals ())).2).2
    (Reachable.dispatch 6 1 _ (Reachable.dispatch 5 0 _ (Reachable.init (globals ()) rfl)))).2.2.2
    1 ⟨1, 6, 1⟩ (by decide) rfl

/-! ## Exactly once, within the budget -/

end EventAbbey
